import Mathlib

/-!
# Verification model of the index-first memory MCP server

Shallow embedding of the persistence and index-consistency layer of the
repository (storage-manager, knowledge-graph-manager, index-structures,
graph-types).  JavaScript arrays become `List`, insertion-ordered `Map`s
become association lists with JS `Map.set` semantics, `Set`s of strings
become duplicate-free lists (value equality), and `Set`s of `{from,to}`
objects become plain lists (JS object sets use reference equality, so
`add`ing a fresh object literal never deduplicates).  The `async` storage
methods, which mutate `this.indexStructure` / `this.isIndexLoaded` and the
memory file, become explicit state-passing functions on `SMState`; a thrown
exception together with the mutated state is returned as
`Except Err _ × SMState`.  `fs.writeFile` success is an explicit `wOk`
parameter, and each operation takes the timestamp `now` that
`new Date().toISOString()` would produce during it.

The on-disk file is modelled structurally (`MemFile`): the data section is
the list of its lines, each line being a parsed entity record, a parsed
relation record, or a line that `JSON.parse` rejects / whose discriminator
is neither `"entity"` nor `"relation"` (both are skipped identically by
`parseLegacyFormat`).  The index section is either absent (legacy file),
malformed (end marker missing or not after the start marker), unparseable
(payload between the markers fails `JSON.parse` / map reconstruction), or a
parsed payload.  Files holding an index marker but no data marker are
outside the modelled state space; every file the program itself writes has
both markers.
-/

namespace MemoryServer

/-- Entity from graph-types.ts: `name`, `entityType`, `observations`. -/
structure Entity where
  name : String
  entityType : String
  observations : List String
  deriving DecidableEq, Repr

/-- Relation from graph-types.ts: the `(from, to, relationType)` triple. -/
structure Relation where
  from_ : String
  to_ : String
  relationType : String
  deriving DecidableEq, Repr

/-- KnowledgeGraph from graph-types.ts. -/
structure KnowledgeGraph where
  entities : List Entity
  relations : List Relation
  deriving DecidableEq, Repr

/-- One outgoing-adjacency record of an EntityIndex (`relationsFrom` items). -/
structure RelFrom where
  relationType : String
  toEntity : String
  deriving DecidableEq, Repr

/-- One incoming-adjacency record of an EntityIndex (`relationsTo` items). -/
structure RelTo where
  relationType : String
  fromEntity : String
  deriving DecidableEq, Repr

/-- EntityIndex from index-structures.ts. -/
structure EntityIndex where
  name : String
  entityType : String
  observationCount : Nat
  relationsFrom : List RelFrom
  relationsTo : List RelTo
  filePosition : Nat
  deriving DecidableEq, Repr

/-- IndexMetadata from index-structures.ts. -/
structure IndexMetadata where
  version : String
  entityCount : Nat
  relationCount : Nat
  lastUpdated : String
  compressionEnabled : Bool
  deriving DecidableEq, Repr

/-- IndexStructure from index-structures.ts.  The three `Map`s are modelled
as insertion-ordered association lists; `typeIndices` values are JS string
`Set`s (duplicate-free lists), `relationIndices` values are JS object `Set`s
(plain lists of `(from, to)` pairs, no value deduplication). -/
structure IndexStructure where
  metadata : IndexMetadata
  entityIndices : List (String × EntityIndex)
  typeIndices : List (String × List String)
  relationIndices : List (String × List (String × String))
  deriving DecidableEq, Repr

/-! ## JS Map / Set primitives on association lists -/

/-- `Map.get` on an insertion-ordered association list. -/
def mapFind {α : Type} : List (String × α) → String → Option α
  | [], _ => none
  | (k', v) :: rest, k => if k' = k then some v else mapFind rest k

/-- `Map.get(k) ?? d`. -/
def mapFindD {α : Type} (m : List (String × α)) (k : String) (d : α) : α :=
  (mapFind m k).getD d

/-- `Map.set`: replace in place if the key exists, else append. -/
def mapSet {α : Type} : List (String × α) → String → α → List (String × α)
  | [], k, v => [(k, v)]
  | (k', v') :: rest, k, v =>
    if k' = k then (k', v) :: rest else (k', v') :: mapSet rest k v

/-- Mutation of the value stored under a key via `Map.get` followed by an
in-place object mutation (no effect when the key is absent). -/
def mapModify {α : Type} : List (String × α) → String → (α → α) → List (String × α)
  | [], _, _ => []
  | (k', v') :: rest, k, f =>
    if k' = k then (k', f v') :: rest else (k', v') :: mapModify rest k f

/-- Boolean string-list membership (JS `Array.includes` / `Set.has` on strings). -/
def strMem (x : String) : List String → Bool
  | [] => false
  | y :: rest => if y = x then true else strMem x rest

/-- `Set.add` on a string set: no-op when the value is already present. -/
def setAdd (s : List String) (x : String) : List String :=
  if strMem x s then s else s ++ [x]

/-- `new Set(list)` on strings: keep the first occurrence of each value. -/
def jsDedup (l : List String) : List String := l.foldl setAdd []

/-! ## JS string primitives (ASCII model of `toLowerCase`, `includes`,
`trim`, `split(/\s+/)`, and the four search regexes) -/

/-- ASCII model of one character of `String.prototype.toLowerCase`. -/
def jsToLower (c : Char) : Char :=
  match c with
  | 'A' => 'a' | 'B' => 'b' | 'C' => 'c' | 'D' => 'd' | 'E' => 'e'
  | 'F' => 'f' | 'G' => 'g' | 'H' => 'h' | 'I' => 'i' | 'J' => 'j'
  | 'K' => 'k' | 'L' => 'l' | 'M' => 'm' | 'N' => 'n' | 'O' => 'o'
  | 'P' => 'p' | 'Q' => 'q' | 'R' => 'r' | 'S' => 's' | 'T' => 't'
  | 'U' => 'u' | 'V' => 'v' | 'W' => 'w' | 'X' => 'x' | 'Y' => 'y'
  | 'Z' => 'z'
  | c => c

/-- `s.toLowerCase()` as a character list. -/
def lowerList (s : String) : List Char := s.toList.map jsToLower

/-- Regex `\s` character class (ASCII part). -/
def isSpaceChar (c : Char) : Bool :=
  c = ' ' || c = '\t' || c = '\n' || c = '\r' || c = '\x0b' || c = '\x0c'

/-- Regex `\w` character class: `[A-Za-z0-9_]`. -/
def isWordChar (c : Char) : Bool :=
  ('a' ≤ c && c ≤ 'z') || ('A' ≤ c && c ≤ 'Z') || ('0' ≤ c && c ≤ '9') || c = '_'

/-- Does `needle` occur at the head of `hay`? -/
def leadMatch : List Char → List Char → Bool
  | [], _ => true
  | _ :: _, [] => false
  | a :: as, b :: bs => a = b && leadMatch as bs

/-- Does `needle` occur anywhere in `hay`?  (JS `String.prototype.includes`.) -/
def hasSub (needle : List Char) : List Char → Bool
  | [] => leadMatch needle []
  | b :: bs => leadMatch needle (b :: bs) || hasSub needle bs

/-- `s.toLowerCase().includes(sub.toLowerCase())` — every case-insensitive
substring test in the source lowercases both sides first. -/
def includesCI (s sub : String) : Bool := hasSub (lowerList sub) (lowerList s)

/-- Case-insensitive literal match of a keyword at the head of the input;
returns the remaining input on success. -/
def matchCI : List Char → List Char → Option (List Char)
  | [], s => some s
  | _ :: _, [] => none
  | k :: ks, c :: cs => if jsToLower c = jsToLower k then matchCI ks cs else none

/-- One anchored attempt of `/<kw>\s+(\w+)/i`: the keyword (case-insensitive),
then at least one whitespace character, then the greedy `\w+` capture. -/
def matchTokenAt (kw : List Char) (s : List Char) : Option String :=
  match matchCI kw s with
  | none => none
  | some rest =>
    if (rest.takeWhile isSpaceChar).isEmpty then none
    else
      let w := (rest.dropWhile isSpaceChar).takeWhile isWordChar
      if w.isEmpty then none else some (String.mk w)

/-- `query.match(/<kw>\s+(\w+)/i)` reduced to its capture group: try the
anchored match at each successive start position, earliest match wins. -/
def findCapture (kw : List Char) : List Char → Option String
  | [] => matchTokenAt kw []
  | c :: cs =>
    match matchTokenAt kw (c :: cs) with
    | some r => some r
    | none => findCapture kw cs

/-- Accumulator pass of `splitTerms`; `cur` holds the current run reversed. -/
def splitTermsGo : List Char → List Char → List String
  | [], cur => if cur.isEmpty then [] else [String.mk cur.reverse]
  | c :: cs, cur =>
    if isSpaceChar c then
      if cur.isEmpty then splitTermsGo cs [] else String.mk cur.reverse :: splitTermsGo cs []
    else splitTermsGo cs (c :: cur)

/-- `query.trim().split(/\s+/)`: the maximal whitespace-free runs of the
query.  (For an all-whitespace query JS returns `[""]` where this returns
`[]`; both have length ≤ 1, and the split result is only consumed when its
length exceeds 1, so the branch taken is identical.) -/
def splitTerms (s : String) : List String := splitTermsGo s.toList []

/-- `query.toLowerCase().startsWith("type ")`. -/
def startsWithTypeSp (s : String) : Bool := leadMatch "type ".toList (lowerList s)

/-- JS `String.prototype.trim` on the ASCII whitespace model. -/
def jsTrim (s : String) : String :=
  String.mk (((s.toList.dropWhile isSpaceChar).reverse.dropWhile isSpaceChar).reverse)

/-- `query.substring(n)`. -/
def strDropN (s : String) (n : Nat) : String := String.mk (s.toList.drop n)

/-! ## The on-disk file -/

/-- One line of the data section (equally: one line of a legacy file).
`junk` covers both a line `JSON.parse` rejects and a JSON line whose
discriminator is neither `"entity"` nor `"relation"`; `parseLegacyFormat`
skips both identically. -/
inductive DataLine where
  | entity (e : Entity)
  | relation (r : Relation)
  | junk
  deriving DecidableEq, Repr

/-- State of the index section of the file.  `parsed p` holds the payload
the serialized maps decode to; since the model's maps are already
association lists, the array-of-pairs serialization coincides with
`IndexStructure` itself. -/
inductive IndexSection where
  | absent
  | malformed
  | unparseable
  | parsed (p : IndexStructure)
  deriving DecidableEq, Repr

/-- The memory file.  When `index = .absent` the file is a legacy file and
`dataLines` are all of its lines; otherwise `dataLines` are the lines after
`===DATA_START===`. -/
structure MemFile where
  index : IndexSection
  dataLines : List DataLine
  deriving DecidableEq, Repr

/-- StorageManager's mutable state: the file at `memoryFilePath` (`none` =
does not exist), `this.indexStructure`, and `this.isIndexLoaded`. -/
structure SMState where
  file : Option MemFile
  indexStructure : IndexStructure
  isIndexLoaded : Bool
  deriving DecidableEq, Repr

/-- Failure modes surfaced to callers. -/
inductive Err where
  | ioError
  | notFound (name : String)
  deriving DecidableEq, Repr

/-! ## StorageManager -/

/-- `createEmptyIndex` (storage-manager lines 44–57). -/
def createEmptyIndex (now : String) : IndexStructure :=
  { metadata :=
      { version := "1.0.0", entityCount := 0, relationCount := 0
        lastUpdated := now, compressionEnabled := false }
    entityIndices := [], typeIndices := [], relationIndices := [] }

/-- The data lines `saveIndexAndData` writes: entity records then relation
records, in graph order (lines 314–317). -/
def dataLinesOf (g : KnowledgeGraph) : List DataLine :=
  g.entities.map .entity ++ g.relations.map .relation

/-- `parseLegacyFormat` (lines 199–220): parse each line, push entity
records and relation records in line order, skip everything else. -/
def parseLegacyFormat (lines : List DataLine) : KnowledgeGraph :=
  { entities := lines.filterMap fun l =>
      match l with | .entity e => some e | _ => none
    relations := lines.filterMap fun l =>
      match l with | .relation r => some r | _ => none }

/-- One entity of the entity-indexing pass of `buildIndexFromGraph` (lines
234–255): a fresh `EntityIndex` with the running `filePosition`, `Map.set`
into `entityIndices`, and the entity name added to the type's string set. -/
def indexEntityStep
    (acc : List (String × EntityIndex) × List (String × List String) × Nat)
    (e : Entity) :
    List (String × EntityIndex) × List (String × List String) × Nat :=
  let ei : EntityIndex :=
    { name := e.name, entityType := e.entityType
      observationCount := e.observations.length
      relationsFrom := [], relationsTo := [], filePosition := acc.2.2 }
  (mapSet acc.1 e.name ei,
   mapSet acc.2.1 e.entityType (setAdd (mapFindD acc.2.1 e.entityType []) e.name),
   acc.2.2 + 1)

/-- The entity-indexing pass of `buildIndexFromGraph` (lines 233–255). -/
def indexEntities (entities : List Entity) :
    List (String × EntityIndex) × List (String × List String) :=
  let r := entities.foldl indexEntityStep ([], [], 0)
  (r.1, r.2.1)

/-- One relation of the relation-indexing pass of `buildIndexFromGraph`
(lines 258–286): push onto the endpoints' adjacency lists when the endpoint
entity is indexed, and append the `(from, to)` pair to the relation type's
object set (object `Set`s never deduplicate by value). -/
def indexRelationStep
    (acc : List (String × EntityIndex) × List (String × List (String × String)))
    (r : Relation) :
    List (String × EntityIndex) × List (String × List (String × String)) :=
  let m1 := mapModify acc.1 r.from_ fun ei =>
    { ei with relationsFrom := ei.relationsFrom ++ [⟨r.relationType, r.to_⟩] }
  let m2 := mapModify m1 r.to_ fun ei =>
    { ei with relationsTo := ei.relationsTo ++ [⟨r.relationType, r.from_⟩] }
  (m2, mapSet acc.2 r.relationType
    (mapFindD acc.2 r.relationType [] ++ [(r.from_, r.to_)]))

/-- The relation-indexing pass of `buildIndexFromGraph` (lines 258–286). -/
def indexRelations (relations : List Relation)
    (acc : List (String × EntityIndex) × List (String × List (String × String))) :
    List (String × EntityIndex) × List (String × List (String × String)) :=
  relations.foldl indexRelationStep acc

/-- `buildIndexFromGraph` (lines 225–287) as the pure index it leaves in
`this.indexStructure`; `now` is the `new Date().toISOString()` value. -/
def buildIndexFromGraph (g : KnowledgeGraph) (now : String) : IndexStructure :=
  let p := indexEntities g.entities
  let q := indexRelations g.relations (p.1, [])
  { metadata :=
      { version := "1.0.0", entityCount := g.entities.length
        relationCount := g.relations.length, lastUpdated := now
        compressionEnabled := false }
    entityIndices := q.1, typeIndices := p.2, relationIndices := q.2 }

/-- `saveIndexAndData` (lines 300–329): serialize `this.indexStructure` as
the index section and `graph` as the data lines, overwrite the file.  A
failing `fs.writeFile` (`wOk = false`) throws and leaves the file as it
was. -/
def saveIndexAndData (st : SMState) (g : KnowledgeGraph) (wOk : Bool) :
    Except Err Unit × SMState :=
  if wOk then
    (.ok (), { st with file := some ⟨.parsed st.indexStructure, dataLinesOf g⟩ })
  else (.error .ioError, st)

/-- `saveIndexAndEmptyData` (lines 292–295). -/
def saveIndexAndEmptyData (st : SMState) (wOk : Bool) : Except Err Unit × SMState :=
  saveIndexAndData st ⟨[], []⟩ wOk

/-- `migrateFromLegacyFormat` (lines 180–194): parse the given content as a
legacy file, build the index from it, save the new layout. -/
def migrateFromLegacyFormat (st : SMState) (lines : List DataLine) (now : String)
    (wOk : Bool) : Except Err IndexStructure × SMState :=
  let g := parseLegacyFormat lines
  let st1 := { st with indexStructure := buildIndexFromGraph g now }
  match saveIndexAndData st1 g wOk with
  | (.ok _, st2) => (.ok st2.indexStructure, st2)
  | (.error e, st2) => (.error e, st2)

/-- The catch block of `rebuildIndex` (lines 169–174): reset to an empty
index and save it; a failure of that save escapes `rebuildIndex`. -/
def rebuildCatch (st : SMState) (now : String) (wOk : Bool) :
    Except Err IndexStructure × SMState :=
  let st1 := { st with indexStructure := createEmptyIndex now }
  match saveIndexAndEmptyData st1 wOk with
  | (.ok _, st2) => (.ok st2.indexStructure, st2)
  | (.error e, st2) => (.error e, st2)

/-- `rebuildIndex` (lines 149–175): reread the file; with no data marker
(legacy file, `index = .absent`) delegate to migration, otherwise parse the
data section, build a fresh index from it, save both, mark the index
loaded.  Errors fall into `rebuildCatch`. -/
def rebuildIndex (st : SMState) (now : String) (wOk : Bool) :
    Except Err IndexStructure × SMState :=
  match st.file with
  | none => rebuildCatch st now wOk
  | some f =>
    match f.index with
    | .absent =>
      match migrateFromLegacyFormat st f.dataLines now wOk with
      | (.ok idx, st1) => (.ok idx, st1)
      | (.error _, st1) => rebuildCatch st1 now wOk
    | _ =>
      let g := parseLegacyFormat f.dataLines
      let st1 := { st with indexStructure := buildIndexFromGraph g now }
      match saveIndexAndData st1 g wOk with
      | (.ok _, st2) => (.ok st2.indexStructure, { st2 with isIndexLoaded := true })
      | (.error _, st2) => rebuildCatch st2 now wOk

/-- The map-reconstruction loops of `loadIndex`'s markers-present path
(lines 104–130): `Map.set` per serialized pair, `new Set(entities)` for the
type sets, and per-relation `add` of fresh `{from, to}` objects. -/
def reconstructIndex (p : IndexStructure) : IndexStructure :=
  { metadata := p.metadata
    entityIndices := p.entityIndices.foldl (fun m kv => mapSet m kv.1 kv.2) []
    typeIndices := p.typeIndices.foldl (fun m kv => mapSet m kv.1 (jsDedup kv.2)) []
    relationIndices := p.relationIndices.foldl (fun m kv => mapSet m kv.1 kv.2) [] }

/-- The outer catch of `loadIndex` (lines 138–143): reset to an empty
index and return it (without marking the index loaded). -/
def loadCatch (st : SMState) (now : String) : IndexStructure × SMState :=
  let st1 := { st with indexStructure := createEmptyIndex now }
  (st1.indexStructure, st1)

/-- `loadIndex` (lines 62–144).  Cached when `isIndexLoaded`; a missing
file is initialized empty; a file without the index marker is migrated; a
malformed or unparseable index section falls back to `rebuildIndex`; a
parsed payload is reconstructed into `this.indexStructure`.  Every error
lands in the outer catch, so the call itself never throws. -/
def loadIndex (st : SMState) (now : String) (wOk : Bool) :
    IndexStructure × SMState :=
  if st.isIndexLoaded then (st.indexStructure, st)
  else
    match st.file with
    | none =>
      match saveIndexAndEmptyData st wOk with
      | (.ok _, st1) => (st1.indexStructure, { st1 with isIndexLoaded := true })
      | (.error _, st1) => loadCatch st1 now
    | some f =>
      match f.index with
      | .absent =>
        match migrateFromLegacyFormat st f.dataLines now wOk with
        | (.ok _, st1) => (st1.indexStructure, { st1 with isIndexLoaded := true })
        | (.error _, st1) => loadCatch st1 now
      | .malformed =>
        match rebuildIndex st now wOk with
        | (.ok idx, st1) => (idx, st1)
        | (.error _, st1) => loadCatch st1 now
      | .unparseable =>
        match rebuildIndex st now wOk with
        | (.ok idx, st1) => (idx, st1)
        | (.error _, st1) => loadCatch st1 now
      | .parsed p =>
        let st1 := { st with indexStructure := reconstructIndex p, isIndexLoaded := true }
        (st1.indexStructure, st1)

/-- `loadFullGraph` (lines 334–358): ensure the index is loaded, then parse
the data section (whole file for a legacy layout); a missing file parses to
the empty graph via the catch. -/
def loadFullGraph (st : SMState) (now : String) (wOk : Bool) :
    KnowledgeGraph × SMState :=
  let st1 := (loadIndex st now wOk).2
  match st1.file with
  | none => (⟨[], []⟩, st1)
  | some f => (parseLegacyFormat f.dataLines, st1)

/-- The `if (!this.isIndexLoaded) await this.loadIndex()` preamble shared by
the point lookups and mutation primitives. -/
def ensureLoaded (st : SMState) (now : String) (wOk : Bool) : SMState :=
  if st.isIndexLoaded then st else (loadIndex st now wOk).2

/-- `getEntityByName` (lines 363–377): index lookup for existence, then the
first matching record of the full graph. -/
def getEntityByName (st : SMState) (name : String) (now : String) (wOk : Bool) :
    Option Entity × SMState :=
  let st1 := ensureLoaded st now wOk
  match mapFind st1.indexStructure.entityIndices name with
  | none => (none, st1)
  | some _ =>
    let r := loadFullGraph st1 now wOk
    (r.1.entities.find? (fun e => e.name = name), r.2)

/-- `getEntitiesByType` (lines 382–396). -/
def getEntitiesByType (st : SMState) (entityType : String) (now : String)
    (wOk : Bool) : List Entity × SMState :=
  let st1 := ensureLoaded st now wOk
  match mapFind st1.indexStructure.typeIndices entityType with
  | none => ([], st1)
  | some names =>
    if names.isEmpty then ([], st1)
    else
      let r := loadFullGraph st1 now wOk
      (r.1.entities.filter (fun e => strMem e.name names), r.2)

/-- `searchEntitiesByName` (lines 425–441): case-insensitive substring
filter over the index's entity names, then materialize those entities. -/
def searchEntitiesByName (st : SMState) (query : String) (now : String)
    (wOk : Bool) : List Entity × SMState :=
  let st1 := ensureLoaded st now wOk
  let matching := (st1.indexStructure.entityIndices.map Prod.fst).filter
    (fun n => includesCI n query)
  if matching.isEmpty then ([], st1)
  else
    let r := loadFullGraph st1 now wOk
    (r.1.entities.filter (fun e => strMem e.name matching), r.2)

/-- Replace the first list element bearing `e.name` by `e` in place, else
append `e`: the effect of `findIndex` followed by assignment-or-push in
`updateEntity` (lines 455–460). -/
def replaceFirstByName : List Entity → Entity → List Entity
  | [], e => [e]
  | x :: xs, e =>
    if x.name = e.name then e :: xs else x :: replaceFirstByName xs e

/-- The in-memory upsert of `updateEntity` (lines 455–460). -/
def upsertEntityG (g : KnowledgeGraph) (e : Entity) : KnowledgeGraph :=
  { g with entities := replaceFirstByName g.entities e }

/-- `updateEntity` (lines 446–467): load, upsert, rebuild the in-memory
index (a mutation of `this.indexStructure` that happens before the write),
then save. -/
def updateEntity (st : SMState) (e : Entity) (now : String) (wOk : Bool) :
    Except Err Unit × SMState :=
  let st1 := ensureLoaded st now wOk
  let r := loadFullGraph st1 now wOk
  let g1 := upsertEntityG r.1 e
  let st2 := { r.2 with indexStructure := buildIndexFromGraph g1 now }
  saveIndexAndData st2 g1 wOk

/-- `updateRelation` (lines 472–500): no-op when the exact triple already
exists, else append it, rebuild the index, save. -/
def updateRelation (st : SMState) (r : Relation) (now : String) (wOk : Bool) :
    Except Err Unit × SMState :=
  let st1 := ensureLoaded st now wOk
  let lr := loadFullGraph st1 now wOk
  if lr.1.relations.any (fun x =>
      x.from_ = r.from_ && x.to_ = r.to_ && x.relationType = r.relationType) then
    (.ok (), lr.2)
  else
    let g1 := { lr.1 with relations := lr.1.relations ++ [r] }
    let st2 := { lr.2 with indexStructure := buildIndexFromGraph g1 now }
    saveIndexAndData st2 g1 wOk

/-- `deleteEntity` (lines 505–526): drop entities with the name and every
relation whose `from` or `to` equals the name, rebuild the index, save. -/
def deleteEntity (st : SMState) (entityName : String) (now : String) (wOk : Bool) :
    Except Err Unit × SMState :=
  let st1 := ensureLoaded st now wOk
  let r := loadFullGraph st1 now wOk
  let g1 : KnowledgeGraph :=
    { entities := r.1.entities.filter (fun e => e.name ≠ entityName)
      relations := r.1.relations.filter
        (fun rel => rel.from_ ≠ entityName && rel.to_ ≠ entityName) }
  let st2 := { r.2 with indexStructure := buildIndexFromGraph g1 now }
  saveIndexAndData st2 g1 wOk

/-- `deleteRelation` (lines 531–551): exact-triple removal. -/
def deleteRelation (st : SMState) (r : Relation) (now : String) (wOk : Bool) :
    Except Err Unit × SMState :=
  let st1 := ensureLoaded st now wOk
  let lr := loadFullGraph st1 now wOk
  let keep := fun (x : Relation) =>
    !(x.from_ = r.from_ && x.to_ = r.to_ && x.relationType = r.relationType)
  let g1 := { lr.1 with relations := lr.1.relations.filter keep }
  let st2 := { lr.2 with indexStructure := buildIndexFromGraph g1 now }
  saveIndexAndData st2 g1 wOk

/-! ## KnowledgeGraphManager -/

/-- The `for (const entity of newEntities) await updateEntity(entity)` loop
of `createEntities`; a throw aborts the remainder. -/
def runEntityUpdates (l : List Entity) (st : SMState) (now : String)
    (wOk : Bool) : Except Err Unit × SMState :=
  match l with
  | [] => (.ok (), st)
  | e :: rest =>
    match updateEntity st e now wOk with
    | (.ok _, s1) => runEntityUpdates rest s1 now wOk
    | (.error er, s1) => (.error er, s1)

/-- `createEntities` (knowledge-graph-manager lines 1138–1153): keep the
input entities whose names are not yet in the graph, then `updateEntity`
each in order; a failing update throws out of the loop. -/
def createEntities (st : SMState) (entities : List Entity) (now : String)
    (wOk : Bool) : Except Err (List Entity) × SMState :=
  let r := loadFullGraph st now wOk
  let newEntities := entities.filter
    (fun e => !(r.1.entities.any (fun x => x.name = e.name)))
  match runEntityUpdates newEntities r.2 now wOk with
  | (.ok _, s1) => (.ok newEntities, s1)
  | (.error er, s1) => (.error er, s1)

/-- The `for (const relation of newRelations) await updateRelation(...)`
loop of `createRelations`. -/
def runRelationUpdates (l : List Relation) (st : SMState) (now : String)
    (wOk : Bool) : Except Err Unit × SMState :=
  match l with
  | [] => (.ok (), st)
  | rel :: rest =>
    match updateRelation st rel now wOk with
    | (.ok _, s1) => runRelationUpdates rest s1 now wOk
    | (.error er, s1) => (.error er, s1)

/-- `createRelations` (lines 1158–1175): keep the input relations not
already present as an exact triple, then `updateRelation` each in order. -/
def createRelations (st : SMState) (relations : List Relation) (now : String)
    (wOk : Bool) : Except Err (List Relation) × SMState :=
  let r := loadFullGraph st now wOk
  let newRelations := relations.filter
    (fun rel => !(r.1.relations.any (fun x =>
      x.from_ = rel.from_ && x.to_ = rel.to_ && x.relationType = rel.relationType)))
  match runRelationUpdates newRelations r.2 now wOk with
  | (.ok _, s1) => (.ok newRelations, s1)
  | (.error er, s1) => (.error er, s1)

/-- One input item of `addObservations`. -/
structure ObsItem where
  entityName : String
  contents : List String
  deriving DecidableEq, Repr

/-- One result item of `addObservations`. -/
structure ObsResult where
  entityName : String
  addedObservations : List String
  deriving DecidableEq, Repr

/-- `addObservations` (lines 1180–1217): per item, look the entity up
(throwing `Entity with name ... not found` on a miss), append the contents
not already present in the entity's observation list, persist via
`updateEntity` when anything was appended, and record what was appended.
A throw abandons the accumulated results but not the already-performed
saves. -/
def addObservations (st : SMState) (items : List ObsItem) (now : String)
    (wOk : Bool) : Except Err (List ObsResult) × SMState :=
  match items with
  | [] => (.ok [], st)
  | it :: rest =>
    match getEntityByName st it.entityName now wOk with
    | (none, st1) => (.error (.notFound it.entityName), st1)
    | (some e, st1) =>
      let newObservations := it.contents.filter
        (fun c => !strMem c e.observations)
      if newObservations.isEmpty then
        match addObservations st1 rest now wOk with
        | (.ok results, st2) => (.ok (⟨it.entityName, []⟩ :: results), st2)
        | (.error er, st2) => (.error er, st2)
      else
        let e1 := { e with observations := e.observations ++ newObservations }
        match updateEntity st1 e1 now wOk with
        | (.error er, st2) => (.error er, st2)
        | (.ok _, st2) =>
          match addObservations st2 rest now wOk with
          | (.ok results, st3) =>
            (.ok (⟨it.entityName, newObservations⟩ :: results), st3)
          | (.error er, st3) => (.error er, st3)

/-- `deleteEntities` (lines 1222–1226): `deleteEntity` per name, in order. -/
def deleteEntities (st : SMState) (entityNames : List String) (now : String)
    (wOk : Bool) : Except Err Unit × SMState :=
  match entityNames with
  | [] => (.ok (), st)
  | n :: rest =>
    match deleteEntity st n now wOk with
    | (.ok _, st1) => deleteEntities st1 rest now wOk
    | (.error er, st1) => (.error er, st1)

/-- `deleteRelations` (lines 1252–1256). -/
def deleteRelations (st : SMState) (relations : List Relation) (now : String)
    (wOk : Bool) : Except Err Unit × SMState :=
  match relations with
  | [] => (.ok (), st)
  | r :: rest =>
    match deleteRelation st r now wOk with
    | (.ok _, st1) => deleteRelations st1 rest now wOk
    | (.error er, st1) => (.error er, st1)

/-- The three-field case-insensitive substring test of `legacySearchNodes`
(name OR entityType OR any observation). -/
def entityMatchesTerm (e : Entity) (t : String) : Bool :=
  includesCI e.name t || includesCI e.entityType t ||
    e.observations.any (fun o => includesCI o t)

/-- `legacySearchNodes` (lines 1375–1448).  For several terms an entity
matches when it matches ANY term (the per-term match sets are unioned);
the result keeps every graph entity whose name is the name of a matching
entity, plus the relations with both endpoints among those names. -/
def legacySearchNodes (st : SMState) (query : String) (now : String)
    (wOk : Bool) : KnowledgeGraph × SMState :=
  let r := loadFullGraph st now wOk
  let graph := r.1
  let searchTerms := splitTerms (jsTrim query)
  if searchTerms.length > 1 then
    let matchedNames := (graph.entities.filter
      (fun e => searchTerms.any (fun t => entityMatchesTerm e t))).map Entity.name
    let filteredEntities := graph.entities.filter (fun e => strMem e.name matchedNames)
    let filteredRelations := graph.relations.filter
      (fun rel => strMem rel.from_ matchedNames && strMem rel.to_ matchedNames)
    (⟨filteredEntities, filteredRelations⟩, r.2)
  else
    let filteredEntities := graph.entities.filter (fun e => entityMatchesTerm e query)
    let names := filteredEntities.map Entity.name
    let filteredRelations := graph.relations.filter
      (fun rel => strMem rel.from_ names && strMem rel.to_ names)
    (⟨filteredEntities, filteredRelations⟩, r.2)

/-- `if (<capture>) filteredRelations = filteredRelations.filter(...)`:
one conditional filter of the relation-token branch of `searchNodes`. -/
def optFilter (o : Option String) (p : String → Relation → Bool)
    (l : List Relation) : List Relation :=
  match o with
  | some n => l.filter (p n)
  | none => l

/-- The four relation-token filters of `searchNodes` (lines 1284–1309)
applied in source order, given the four regex captures. -/
def relationTokenFilter (relations : List Relation)
    (relationMatch fromMatch toMatch typeMatch : Option String) : List Relation :=
  optFilter typeMatch (fun n r => includesCI r.relationType n)
    (optFilter toMatch (fun n r => r.to_ = n)
      (optFilter fromMatch (fun n r => r.from_ = n)
        (optFilter relationMatch (fun n r => r.from_ = n || r.to_ = n) relations)))

/-- `searchNodes` (lines 1261–1370).  The four regexes
`/relations\s+(\w+)/i`, `/from\s+(\w+)/i`, `/to\s+(\w+)/i`,
`/type\s+(\w+)/i` are tried against the whole query; any hit selects
relation-first filtering (filter the relation set, then take the entities
named by the surviving endpoints).  Otherwise a `type `-prefixed query
uses the type index, a multi-term query falls back to
`legacySearchNodes`, and a single term goes through
`searchEntitiesByName` plus induced relations. -/
def searchNodes (st : SMState) (query : String) (now : String) (wOk : Bool) :
    KnowledgeGraph × SMState :=
  let st0 := (loadIndex st now wOk).2
  let relationMatch := findCapture "relations".toList query.toList
  let fromMatch := findCapture "from".toList query.toList
  let toMatch := findCapture "to".toList query.toList
  let typeMatch := findCapture "type".toList query.toList
  if relationMatch.isSome || fromMatch.isSome || toMatch.isSome || typeMatch.isSome then
    let r := loadFullGraph st0 now wOk
    let graph := r.1
    let filteredRelations :=
      relationTokenFilter graph.relations relationMatch fromMatch toMatch typeMatch
    let relatedEntityNames :=
      filteredRelations.map Relation.from_ ++ filteredRelations.map Relation.to_
    let filteredEntities := graph.entities.filter
      (fun e => strMem e.name relatedEntityNames)
    (⟨filteredEntities, filteredRelations⟩, r.2)
  else if startsWithTypeSp query then
    let entityType := jsTrim (strDropN query 5)
    let er := getEntitiesByType st0 entityType now wOk
    let r := loadFullGraph er.2 now wOk
    let names := er.1.map Entity.name
    let relations := r.1.relations.filter
      (fun rel => strMem rel.from_ names && strMem rel.to_ names)
    (⟨er.1, relations⟩, r.2)
  else
    let searchTerms := splitTerms (jsTrim query)
    if searchTerms.length > 1 then legacySearchNodes st0 query now wOk
    else
      let er := searchEntitiesByName st0 query now wOk
      let r := loadFullGraph er.2 now wOk
      let names := er.1.map Entity.name
      let relations := r.1.relations.filter
        (fun rel => strMem rel.from_ names && strMem rel.to_ names)
      (⟨er.1, relations⟩, r.2)

/-! ## Canonical states -/

/-- The file a successful save of `g` with in-memory index `idx` leaves on
disk. -/
def savedFile (g : KnowledgeGraph) (idx : IndexStructure) : MemFile :=
  ⟨.parsed idx, dataLinesOf g⟩

/-- The StorageManager state after any successful mutation that stored `g`
at time `now`: every write path runs `buildIndexFromGraph` and then
`saveIndexAndData` with the index already loaded. -/
def storedState (g : KnowledgeGraph) (now : String) : SMState :=
  { file := some (savedFile g (buildIndexFromGraph g now))
    indexStructure := buildIndexFromGraph g now
    isIndexLoaded := true }

/-- A fresh StorageManager (constructor, lines 21–24, with construction
time `t0`) pointed at an existing file `f`: nothing loaded yet. -/
def freshState (f : MemFile) (t0 : String) : SMState :=
  { file := some f, indexStructure := createEmptyIndex t0, isIndexLoaded := false }

/-! ## Basic lemmas about the map/set primitives -/

theorem strMem_iff (x : String) (s : List String) : strMem x s = true ↔ x ∈ s := by
  induction s with
  | nil => simp [strMem]
  | cons y rest ih =>
    by_cases h : y = x
    · subst h; simp [strMem]
    · have h2 : ¬ x = y := fun he => h he.symm
      simp [strMem, h, ih, h2]

theorem mapFind_mapSet {α : Type} (m : List (String × α)) (k n : String) (v : α) :
    mapFind (mapSet m k v) n = if k = n then some v else mapFind m n := by
  induction m with
  | nil =>
    by_cases h : k = n <;> simp [mapSet, mapFind, h]
  | cons p rest ih =>
    by_cases h1 : p.1 = k
    · subst h1
      by_cases h2 : p.1 = n <;> simp [mapSet, mapFind, h2]
    · by_cases h2 : p.1 = n
      · subst h2
        have h3 : ¬ (k = p.1) := fun he => h1 he.symm
        simp [mapSet, mapFind, h1, h3]
      · simp [mapSet, mapFind, h1, h2, ih]

theorem mapFind_mapModify_isSome {α : Type} (m : List (String × α)) (k n : String)
    (f : α → α) : (mapFind (mapModify m k f) n).isSome = (mapFind m n).isSome := by
  induction m with
  | nil => simp [mapModify]
  | cons p rest ih =>
    by_cases h1 : p.1 = k
    · subst h1
      by_cases h2 : p.1 = n <;> simp [mapModify, mapFind, h2]
    · by_cases h2 : p.1 = n
      · subst h2; simp [mapModify, mapFind, h1]
      · simp [mapModify, mapFind, h1, h2, ih]

theorem mapFind_isSome_iff_mem {α : Type} (m : List (String × α)) (n : String) :
    (mapFind m n).isSome = true ↔ n ∈ m.map Prod.fst := by
  induction m with
  | nil => simp [mapFind]
  | cons p rest ih =>
    by_cases h : p.1 = n
    · subst h; simp [mapFind]
    · have h2 : ¬ n = p.1 := fun he => h he.symm
      simp [mapFind, h, ih, h2]

/-- Saving then reparsing the data section reproduces the graph exactly:
the saved lines are the entity records followed by the relation records,
and `parseLegacyFormat` collects exactly those two families in order. -/
theorem parseLegacyFormat_dataLinesOf (g : KnowledgeGraph) :
    parseLegacyFormat (dataLinesOf g) = g := by
  cases g with
  | mk es rs =>
    simp only [parseLegacyFormat, dataLinesOf, List.filterMap_append, List.filterMap_map]
    have he1 : List.filterMap
        ((fun l => match l with | .entity e => some e | _ => none) ∘ DataLine.entity) es
        = es := by
      induction es with
      | nil => rfl
      | cons e rest ih => simpa [List.filterMap_cons] using ih
    have he2 : List.filterMap
        ((fun l => match l with | .entity e => some e | _ => none) ∘ DataLine.relation) rs
        = [] := by
      induction rs with
      | nil => rfl
      | cons r rest ih => simp [List.filterMap_cons, ih]
    have hr1 : List.filterMap
        ((fun l => match l with | .relation r => some r | _ => none) ∘ DataLine.entity) es
        = [] := by
      induction es with
      | nil => rfl
      | cons e rest ih => simp [List.filterMap_cons, ih]
    have hr2 : List.filterMap
        ((fun l => match l with | .relation r => some r | _ => none) ∘ DataLine.relation) rs
        = rs := by
      induction rs with
      | nil => rfl
      | cons r rest ih => simpa [List.filterMap_cons] using ih
    simp [he1, he2, hr1, hr2]

/-! ## Behaviour of the operations on a freshly-saved state -/

theorem loadIndex_stored (g : KnowledgeGraph) (t now : String) (wOk : Bool) :
    loadIndex (storedState g t) now wOk = (buildIndexFromGraph g t, storedState g t) :=
  rfl

theorem loadFullGraph_stored (g : KnowledgeGraph) (t now : String) (wOk : Bool) :
    loadFullGraph (storedState g t) now wOk = (g, storedState g t) := by
  simp [loadFullGraph, loadIndex, storedState, savedFile, parseLegacyFormat_dataLinesOf]

theorem ensureLoaded_stored (g : KnowledgeGraph) (t now : String) (wOk : Bool) :
    ensureLoaded (storedState g t) now wOk = storedState g t :=
  rfl

theorem updateEntity_stored (g : KnowledgeGraph) (e : Entity) (t now : String) :
    updateEntity (storedState g t) e now true
      = (.ok (), storedState (upsertEntityG g e) now) := by
  simp only [updateEntity, ensureLoaded_stored, loadFullGraph_stored]
  simp [saveIndexAndData, storedState, savedFile]

/-- The exact-triple `some(...)` test of `updateRelation`/`createRelations`
is membership, since a `Relation` is nothing but its three fields. -/
theorem relAny_iff (rs : List Relation) (rel : Relation) :
    (rs.any fun x =>
      x.from_ = rel.from_ && x.to_ = rel.to_ && x.relationType = rel.relationType)
      = true ↔ rel ∈ rs := by
  induction rs with
  | nil => simp
  | cons x rest ih =>
    simp only [List.any_cons, Bool.or_eq_true, ih, List.mem_cons]
    constructor
    · rintro (hx | hm)
      · left
        simp only [Bool.and_eq_true, decide_eq_true_eq] at hx
        obtain ⟨⟨h1, h2⟩, h3⟩ := hx
        cases x
        cases rel
        simp_all
      · right; exact hm
    · rintro (he | hm)
      · left; subst he; simp
      · right; exact hm

theorem updateRelation_stored_dup (g : KnowledgeGraph) (rel : Relation)
    (t now : String) (h : rel ∈ g.relations) :
    updateRelation (storedState g t) rel now true = (.ok (), storedState g t) := by
  have ha := (relAny_iff g.relations rel).2 h
  simp only [updateRelation, ensureLoaded_stored, loadFullGraph_stored]
  rw [ha]
  simp

theorem updateRelation_stored_new (g : KnowledgeGraph) (rel : Relation)
    (t now : String) (h : rel ∉ g.relations) :
    updateRelation (storedState g t) rel now true
      = (.ok (), storedState { g with relations := g.relations ++ [rel] } now) := by
  have ha : (g.relations.any fun x =>
      x.from_ = rel.from_ && x.to_ = rel.to_ && x.relationType = rel.relationType)
      = false := by
    rw [← Bool.not_eq_true]
    intro hc
    exact h ((relAny_iff g.relations rel).1 hc)
  simp only [updateRelation, ensureLoaded_stored, loadFullGraph_stored]
  rw [ha]
  simp [saveIndexAndData, storedState, savedFile]

theorem deleteEntity_stored (g : KnowledgeGraph) (n : String) (t now : String) :
    deleteEntity (storedState g t) n now true
      = (.ok (), storedState
          ⟨g.entities.filter (fun e => e.name ≠ n),
           g.relations.filter (fun rel => rel.from_ ≠ n && rel.to_ ≠ n)⟩ now) := by
  simp only [deleteEntity, ensureLoaded_stored, loadFullGraph_stored]
  simp [saveIndexAndData, storedState, savedFile]

/-! ## The entity-index key set of a built index -/

theorem indexRelations_find_isSome (n : String) (rels : List Relation)
    (acc : List (String × EntityIndex) × List (String × List (String × String))) :
    (mapFind (indexRelations rels acc).1 n).isSome = (mapFind acc.1 n).isSome := by
  induction rels generalizing acc with
  | nil => rfl
  | cons r rest ih =>
    show (mapFind (indexRelations rest (indexRelationStep acc r)).1 n).isSome = _
    rw [ih]
    simp [indexRelationStep, mapFind_mapModify_isSome]

theorem indexEntities_find_isSome (n : String) (ents : List Entity)
    (accE : List (String × EntityIndex)) (accT : List (String × List String))
    (c : Nat) :
    ((mapFind (List.foldl indexEntityStep (accE, accT, c) ents).1 n).isSome = true)
      ↔ ((mapFind accE n).isSome = true ∨ n ∈ ents.map Entity.name) := by
  induction ents generalizing accE accT c with
  | nil => simp
  | cons e rest ih =>
    rw [List.foldl_cons]
    show (mapFind (List.foldl indexEntityStep
      (mapSet accE e.name _, _, _) rest).1 n).isSome = true ↔ _
    rw [ih]
    by_cases h : e.name = n
    · subst h
      simp [mapFind_mapSet]
    · have h2 : ¬ n = e.name := fun he => h he.symm
      simp [mapFind_mapSet, h, h2]

/-- An entity name is a key of the built index exactly when some entity of
the graph bears it. -/
theorem buildIndex_entity_key (g : KnowledgeGraph) (t : String) (n : String) :
    ((mapFind (buildIndexFromGraph g t).entityIndices n).isSome = true)
      ↔ n ∈ g.entities.map Entity.name := by
  show ((mapFind (indexRelations g.relations ((indexEntities g.entities).1, [])).1
    n).isSome = true) ↔ _
  rw [indexRelations_find_isSome]
  show ((mapFind (List.foldl indexEntityStep ([], [], 0) g.entities).1 n).isSome = true) ↔ _
  rw [indexEntities_find_isSome]
  simp [mapFind]

theorem getEntityByName_stored (g : KnowledgeGraph) (n : String) (t now : String)
    (wOk : Bool) :
    getEntityByName (storedState g t) n now wOk
      = (g.entities.find? (fun e => e.name = n), storedState g t) := by
  by_cases hn : n ∈ g.entities.map Entity.name
  · have hs : (mapFind (buildIndexFromGraph g t).entityIndices n).isSome = true :=
      (buildIndex_entity_key g t n).2 hn
    obtain ⟨v, hv⟩ := Option.isSome_iff_exists.1 hs
    simp only [getEntityByName, ensureLoaded_stored, loadFullGraph_stored]
    simp only [storedState, savedFile]
    simp [hv]
  · have hs : mapFind (buildIndexFromGraph g t).entityIndices n = none := by
      rw [← Option.not_isSome_iff_eq_none]
      intro hc
      exact hn ((buildIndex_entity_key g t n).1 hc)
    have hf : g.entities.find? (fun e => e.name = n) = none := by
      rw [List.find?_eq_none]
      intro x hx hc
      exact hn (List.mem_map.2 ⟨x, hx, by simpa using hc⟩)
    simp only [getEntityByName, ensureLoaded_stored, loadFullGraph_stored]
    simp only [storedState, savedFile]
    simp [hs, hf]

/-- Loading the index of a file whose index section parses never rewrites
the file. -/
theorem loadIndex_file_parsed (st : SMState) (p : IndexStructure)
    (d : List DataLine) (now : String) (wOk : Bool)
    (h : st.file = some ⟨.parsed p, d⟩) :
    (loadIndex st now wOk).2.file = st.file := by
  by_cases hl : st.isIndexLoaded
  · simp [loadIndex, hl]
  · simp [loadIndex, hl, h]

/-- C1: For every knowledge graph G (including the empty graph), saving G
via saveIndexAndData and then calling loadFullGraph on the resulting file
yields a graph equal to G as sets: the same set of entities keyed by name
(with equal entityType and observation lists) and the same set of relations
keyed by the (from, to, relationType) triple.  (Here even the entity and
relation lists themselves, not just the sets, coincide.) -/
theorem save_loadFullGraph_round_trip (st : SMState) (g : KnowledgeGraph)
    (now2 : String) (wOk2 : Bool) :
    (∀ e, e ∈ (loadFullGraph (saveIndexAndData st g true).2 now2 wOk2).1.entities
        ↔ e ∈ g.entities) ∧
    (∀ r, r ∈ (loadFullGraph (saveIndexAndData st g true).2 now2 wOk2).1.relations
        ↔ r ∈ g.relations) := by
  have h1 : (saveIndexAndData st g true).2
      = { st with file := some ⟨.parsed st.indexStructure, dataLinesOf g⟩ } := rfl
  have h2 := loadIndex_file_parsed (saveIndexAndData st g true).2 st.indexStructure
    (dataLinesOf g) now2 wOk2 (by rw [h1])
  have h3 : (loadFullGraph (saveIndexAndData st g true).2 now2 wOk2).1 = g := by
    unfold loadFullGraph
    dsimp only
    rw [h2, h1]
    simp [parseLegacyFormat_dataLinesOf]
  rw [h3]
  exact ⟨fun _ => Iff.rfl, fun _ => Iff.rfl⟩

/-- C2: For every file whose data section is valid but whose index payload
between the index markers is truncated or not parseable as JSON (including
a missing end marker or an end marker preceding the start marker),
loadIndex() does not raise an error: it returns the same Index that
rebuildIndex() derives from that data section. -/
theorem loadIndex_corrupt_index_recovers (f : MemFile) (t0 now : String)
    (h : f.index = .malformed ∨ f.index = .unparseable) :
    (loadIndex (freshState f t0) now true).1
        = buildIndexFromGraph (parseLegacyFormat f.dataLines) now ∧
    (rebuildIndex (freshState f t0) now true).1
        = .ok (buildIndexFromGraph (parseLegacyFormat f.dataLines) now) := by
  obtain ⟨i, d⟩ := f
  rcases h with h | h <;> (simp only at h; subst h; exact ⟨rfl, rfl⟩)

/-- Witness for C2 at a concrete corrupt file: an unparseable index payload
over a one-entity data section. -/
theorem loadIndex_corrupt_index_recovers_witness :
    (loadIndex (freshState ⟨.unparseable, [.entity ⟨"A", "T", []⟩]⟩ "t0") "N" true).1
        = buildIndexFromGraph
            (parseLegacyFormat [.entity ⟨"A", "T", []⟩]) "N" ∧
    (rebuildIndex (freshState ⟨.unparseable, [.entity ⟨"A", "T", []⟩]⟩ "t0") "N" true).1
        = .ok (buildIndexFromGraph
            (parseLegacyFormat [.entity ⟨"A", "T", []⟩]) "N") :=
  loadIndex_corrupt_index_recovers ⟨.unparseable, [.entity ⟨"A", "T", []⟩]⟩ "t0" "N"
    (Or.inr rfl)

/-- C6 (at the failing input): `updateEntity` of a new entity "B" over a
store holding only "A", with `fs.writeFile` failing, propagates the I/O
error — but `buildIndexFromGraph` already replaced `this.indexStructure`
before the write and `isIndexLoaded` stays true, so the next `loadIndex`
serves from cache an index listing "B" while the file, and hence
`loadFullGraph`, still knows only "A": the cache describes a graph that was
never persisted, contradicting the spec's requirement. -/
theorem updateEntity_failed_write_leaves_stale_cache :
    (updateEntity (storedState ⟨[⟨"A", "T", []⟩], []⟩ "t0") ⟨"B", "T", []⟩ "t1"
        false).1 = .error .ioError ∧
    (updateEntity (storedState ⟨[⟨"A", "T", []⟩], []⟩ "t0") ⟨"B", "T", []⟩ "t1"
        false).2.isIndexLoaded = true ∧
    mapFind (updateEntity (storedState ⟨[⟨"A", "T", []⟩], []⟩ "t0") ⟨"B", "T", []⟩
        "t1" false).2.indexStructure.entityIndices "B"
      = some ⟨"B", "T", 0, [], [], 1⟩ ∧
    (updateEntity (storedState ⟨[⟨"A", "T", []⟩], []⟩ "t0") ⟨"B", "T", []⟩ "t1"
        false).2.file = (storedState ⟨[⟨"A", "T", []⟩], []⟩ "t0").file ∧
    (loadIndex (updateEntity (storedState ⟨[⟨"A", "T", []⟩], []⟩ "t0") ⟨"B", "T", []⟩
        "t1" false).2 "t2" true).1
      = (updateEntity (storedState ⟨[⟨"A", "T", []⟩], []⟩ "t0") ⟨"B", "T", []⟩ "t1"
        false).2.indexStructure ∧
    (loadFullGraph (updateEntity (storedState ⟨[⟨"A", "T", []⟩], []⟩ "t0")
        ⟨"B", "T", []⟩ "t1" false).2 "t2" true).1.entities.find?
        (fun e => e.name = "B") = none := by
  refine ⟨rfl, rfl, by decide, rfl, rfl, by decide⟩

/-- C5 (amended): creating a relation whose `from` endpoint names no
existing entity succeeds, returns the relation as new, and the relation is
retrievable; but a later delete-entities call on that nonexistent endpoint
name *removes* the relation — `deleteEntity` filters incident relations by
name unconditionally, whether or not the entity exists. -/
theorem dangling_relation_create_then_delete (g : KnowledgeGraph)
    (rel : Relation) (t n1 n2 n3 n4 : String)
    (_h1 : rel.from_ ∉ g.entities.map Entity.name)
    (h2 : rel ∉ g.relations) :
    (createRelations (storedState g t) [rel] n1 true).1 = .ok [rel] ∧
    rel ∈ (loadFullGraph (createRelations (storedState g t) [rel] n1 true).2
        n3 true).1.relations ∧
    (deleteEntities (createRelations (storedState g t) [rel] n1 true).2
        [rel.from_] n2 true).1 = .ok () ∧
    rel ∉ (loadFullGraph (deleteEntities (createRelations (storedState g t)
        [rel] n1 true).2 [rel.from_] n2 true).2 n4 true).1.relations := by
  have ha : (g.relations.any fun x =>
      x.from_ = rel.from_ && x.to_ = rel.to_ && x.relationType = rel.relationType)
      = false := by
    rw [← Bool.not_eq_true]
    intro hc
    exact h2 ((relAny_iff g.relations rel).1 hc)
  have hc : createRelations (storedState g t) [rel] n1 true
      = (.ok [rel], storedState { g with relations := g.relations ++ [rel] } n1) := by
    simp only [createRelations, loadFullGraph_stored]
    rw [List.filter_cons]
    simp only [ha, Bool.not_false, if_pos trivial, List.filter_nil]
    simp only [runRelationUpdates, updateRelation_stored_new g rel t n1 h2]
  rw [hc]
  have hd : deleteEntities (storedState { g with relations := g.relations ++ [rel] } n1)
      [rel.from_] n2 true
      = (.ok (), storedState
          ⟨g.entities.filter (fun e => e.name ≠ rel.from_),
           (g.relations ++ [rel]).filter
             (fun r => r.from_ ≠ rel.from_ && r.to_ ≠ rel.from_)⟩ n2) := by
    simp only [deleteEntities, deleteEntity_stored]
  rw [hd]
  refine ⟨rfl, ?_, rfl, ?_⟩
  · rw [loadFullGraph_stored]
    simp
  · rw [loadFullGraph_stored]
    intro hmem
    have := (List.mem_filter.1 hmem).2
    simp at this

/-- Witness for C5's amended theorem: the dangling relation
`("A","B","knows")` over the empty graph. -/
theorem dangling_relation_create_then_delete_witness :
    (createRelations (storedState ⟨[], []⟩ "t0") [⟨"A", "B", "knows"⟩] "t1" true).1
        = .ok [⟨"A", "B", "knows"⟩] ∧
    (⟨"A", "B", "knows"⟩ : Relation) ∈ (loadFullGraph (createRelations
        (storedState ⟨[], []⟩ "t0") [⟨"A", "B", "knows"⟩] "t1" true).2
        "t3" true).1.relations ∧
    (deleteEntities (createRelations (storedState ⟨[], []⟩ "t0")
        [⟨"A", "B", "knows"⟩] "t1" true).2 ["A"] "t2" true).1 = .ok () ∧
    (⟨"A", "B", "knows"⟩ : Relation) ∉ (loadFullGraph (deleteEntities
        (createRelations (storedState ⟨[], []⟩ "t0") [⟨"A", "B", "knows"⟩]
        "t1" true).2 ["A"] "t2" true).2 "t4" true).1.relations :=
  dangling_relation_create_then_delete ⟨[], []⟩ ⟨"A", "B", "knows"⟩
    "t0" "t1" "t2" "t3" "t4" (by decide) (by decide)

/-- Counterexample to C5 as stated: after creating the dangling relation
`("A","B","knows")` and then deleting the never-present entity "A", the
relation is gone — the delete was not a no-op with respect to it. -/
theorem dangling_relation_claim_false :
    (⟨"A", "B", "knows"⟩ : Relation) ∈ (loadFullGraph (createRelations
        (storedState ⟨[], []⟩ "t0") [⟨"A", "B", "knows"⟩] "t1" true).2
        "t3" true).1.relations ∧
    (⟨"A", "B", "knows"⟩ : Relation) ∉ (loadFullGraph (deleteEntities
        (createRelations (storedState ⟨[], []⟩ "t0") [⟨"A", "B", "knows"⟩]
        "t1" true).2 ["A"] "t2" true).2 "t3" true).1.relations := by
  decide

/-! ## Folded effect of the create loops -/

theorem runEntityUpdates_stored (l : List Entity) (g : KnowledgeGraph)
    (t now : String) :
    ∃ t', runEntityUpdates l (storedState g t) now true
      = (.ok (), storedState (l.foldl upsertEntityG g) t') := by
  induction l generalizing g t with
  | nil => exact ⟨t, rfl⟩
  | cons e rest ih =>
    obtain ⟨t', h⟩ := ih (upsertEntityG g e) now
    refine ⟨t', ?_⟩
    simp only [runEntityUpdates, updateEntity_stored, h, List.foldl_cons]

theorem createEntities_stored (g : KnowledgeGraph) (es : List Entity)
    (t now : String) :
    ∃ t', createEntities (storedState g t) es now true
      = (.ok (es.filter (fun e => !(g.entities.any fun x => x.name = e.name))),
         storedState
           ((es.filter (fun e => !(g.entities.any fun x => x.name = e.name))).foldl
             upsertEntityG g) t') := by
  obtain ⟨t', h⟩ := runEntityUpdates_stored
    (es.filter (fun e => !(g.entities.any fun x => x.name = e.name))) g t now
  refine ⟨t', ?_⟩
  simp only [createEntities, loadFullGraph_stored, h]

theorem replaceFirst_names (l : List Entity) (e : Entity) (n : String) :
    n ∈ (replaceFirstByName l e).map Entity.name
      ↔ n ∈ l.map Entity.name ∨ n = e.name := by
  induction l with
  | nil => simp [replaceFirstByName, eq_comm]
  | cons x xs ih =>
    by_cases h : x.name = e.name
    · rw [replaceFirstByName, if_pos h]
      simp only [List.map_cons, List.mem_cons, h]
      tauto
    · rw [replaceFirstByName, if_neg h]
      simp only [List.map_cons, List.mem_cons, ih]
      tauto

theorem names_foldl_upsert (l : List Entity) (g : KnowledgeGraph) (n : String)
    (h : n ∈ g.entities.map Entity.name ∨ ∃ e ∈ l, e.name = n) :
    n ∈ (l.foldl upsertEntityG g).entities.map Entity.name := by
  induction l generalizing g with
  | nil =>
    rcases h with h | ⟨e, he, _⟩
    · simpa using h
    · exact absurd he (List.not_mem_nil e)
  | cons e rest ih =>
    rw [List.foldl_cons]
    apply ih
    rcases h with h | ⟨x, hx, hxn⟩
    · exact Or.inl ((replaceFirst_names g.entities e n).2 (Or.inl h))
    · rcases List.mem_cons.1 hx with rfl | hx2
      · exact Or.inl ((replaceFirst_names g.entities x n).2 (Or.inr hxn.symm))
      · exact Or.inr ⟨x, hx2, hxn⟩

theorem createEntities_all_present (g1 : KnowledgeGraph) (es : List Entity)
    (t now : String) (h : ∀ e ∈ es, e.name ∈ g1.entities.map Entity.name) :
    createEntities (storedState g1 t) es now true = (.ok [], storedState g1 t) := by
  have hf : es.filter (fun e => !(g1.entities.any fun x => x.name = e.name)) = [] := by
    rw [List.filter_eq_nil_iff]
    intro e he
    have hany : (g1.entities.any fun x => x.name = e.name) = true := by
      rw [List.any_eq_true]
      obtain ⟨x, hx, hxe⟩ := List.mem_map.1 (h e he)
      exact ⟨x, hx, by simp [hxe]⟩
    simp [hany]
  simp only [createEntities, loadFullGraph_stored, hf, runEntityUpdates]

/-- The graph-level effect of one `updateRelation`: append the triple
unless it is already present. -/
def addRelationG (g : KnowledgeGraph) (rel : Relation) : KnowledgeGraph :=
  if rel ∈ g.relations then g else { g with relations := g.relations ++ [rel] }

theorem runRelationUpdates_stored (l : List Relation) (g : KnowledgeGraph)
    (t now : String) :
    ∃ t', runRelationUpdates l (storedState g t) now true
      = (.ok (), storedState (l.foldl addRelationG g) t') := by
  induction l generalizing g t with
  | nil => exact ⟨t, rfl⟩
  | cons rel rest ih =>
    by_cases h : rel ∈ g.relations
    · obtain ⟨t', hr⟩ := ih g t
      refine ⟨t', ?_⟩
      simp only [runRelationUpdates, updateRelation_stored_dup g rel t now h, hr,
        List.foldl_cons, addRelationG, if_pos h]
    · obtain ⟨t', hr⟩ := ih { g with relations := g.relations ++ [rel] } now
      refine ⟨t', ?_⟩
      simp only [runRelationUpdates, updateRelation_stored_new g rel t now h, hr,
        List.foldl_cons, addRelationG, if_neg h]

theorem createRelations_stored (g : KnowledgeGraph) (rs : List Relation)
    (t now : String) :
    ∃ t', createRelations (storedState g t) rs now true
      = (.ok (rs.filter (fun rel => !(g.relations.any fun x =>
            x.from_ = rel.from_ && x.to_ = rel.to_ && x.relationType = rel.relationType))),
         storedState
           ((rs.filter (fun rel => !(g.relations.any fun x =>
             x.from_ = rel.from_ && x.to_ = rel.to_ &&
               x.relationType = rel.relationType))).foldl addRelationG g) t') := by
  obtain ⟨t', h⟩ := runRelationUpdates_stored
    (rs.filter (fun rel => !(g.relations.any fun x =>
      x.from_ = rel.from_ && x.to_ = rel.to_ && x.relationType = rel.relationType)))
    g t now
  refine ⟨t', ?_⟩
  simp only [createRelations, loadFullGraph_stored, h]

theorem mem_addRelationG (g : KnowledgeGraph) (rel r' : Relation)
    (h : r' ∈ g.relations) : r' ∈ (addRelationG g rel).relations := by
  unfold addRelationG
  split
  · exact h
  · exact List.mem_append.2 (Or.inl h)

theorem self_mem_addRelationG (g : KnowledgeGraph) (rel : Relation) :
    rel ∈ (addRelationG g rel).relations := by
  unfold addRelationG
  split
  · assumption
  · exact List.mem_append.2 (Or.inr (List.mem_singleton.2 rfl))

theorem mem_foldl_addRelation (l : List Relation) (g : KnowledgeGraph)
    (rel : Relation) (h : rel ∈ g.relations ∨ rel ∈ l) :
    rel ∈ (l.foldl addRelationG g).relations := by
  induction l generalizing g with
  | nil =>
    rcases h with h | h
    · simpa using h
    · exact absurd h (List.not_mem_nil rel)
  | cons x rest ih =>
    rw [List.foldl_cons]
    apply ih
    rcases h with h | h
    · exact Or.inl (mem_addRelationG g x rel h)
    · rcases List.mem_cons.1 h with rfl | h2
      · exact Or.inl (self_mem_addRelationG g rel)
      · exact Or.inr h2

theorem createRelations_all_present (g1 : KnowledgeGraph) (rs : List Relation)
    (t now : String) (h : ∀ rel ∈ rs, rel ∈ g1.relations) :
    createRelations (storedState g1 t) rs now true = (.ok [], storedState g1 t) := by
  have hf : rs.filter (fun rel => !(g1.relations.any fun x =>
      x.from_ = rel.from_ && x.to_ = rel.to_ && x.relationType = rel.relationType))
      = [] := by
    rw [List.filter_eq_nil_iff]
    intro rel hrel
    simp [(relAny_iff g1.relations rel).2 (h rel hrel)]
  simp only [createRelations, loadFullGraph_stored, hf, runRelationUpdates]

/-- C7: For every entity (resp. relation), calling create-entities (resp.
create-relations) twice with the same input returns it as newly created
only the first time — the first call returns exactly the not-yet-present
subset, the second call returns the empty subset — and the stored state
(file and cache alike) after the second call equals the stored state before
it. -/
theorem create_twice_idempotent (g : KnowledgeGraph) (es : List Entity)
    (rs : List Relation) (t n1 n2 n3 n4 : String) :
    (createEntities (storedState g t) es n1 true).1
        = .ok (es.filter (fun e => !(g.entities.any fun x => x.name = e.name))) ∧
    (createEntities (createEntities (storedState g t) es n1 true).2 es n2 true).1
        = .ok [] ∧
    (createEntities (createEntities (storedState g t) es n1 true).2 es n2 true).2
        = (createEntities (storedState g t) es n1 true).2 ∧
    (createRelations (storedState g t) rs n3 true).1
        = .ok (rs.filter (fun rel => !(g.relations.any fun x =>
            x.from_ = rel.from_ && x.to_ = rel.to_ &&
              x.relationType = rel.relationType))) ∧
    (createRelations (createRelations (storedState g t) rs n3 true).2 rs n4 true).1
        = .ok [] ∧
    (createRelations (createRelations (storedState g t) rs n3 true).2 rs n4 true).2
        = (createRelations (storedState g t) rs n3 true).2 := by
  obtain ⟨t', h1⟩ := createEntities_stored g es t n1
  obtain ⟨u', h2⟩ := createRelations_stored g rs t n3
  have hall : ∀ e ∈ es, e.name ∈
      ((es.filter (fun e => !(g.entities.any fun x => x.name = e.name))).foldl
        upsertEntityG g).entities.map Entity.name := by
    intro e he
    apply names_foldl_upsert
    by_cases hany : (g.entities.any fun x => x.name = e.name) = true
    · obtain ⟨x, hx, hxe⟩ := List.any_eq_true.1 hany
      exact Or.inl (List.mem_map.2 ⟨x, hx, by simpa using hxe⟩)
    · exact Or.inr ⟨e, List.mem_filter.2 ⟨he, by simp [hany]⟩, rfl⟩
  have hallr : ∀ rel ∈ rs,
      rel ∈ ((rs.filter (fun rel => !(g.relations.any fun x =>
        x.from_ = rel.from_ && x.to_ = rel.to_ &&
          x.relationType = rel.relationType))).foldl addRelationG g).relations := by
    intro rel hrel
    apply mem_foldl_addRelation
    by_cases hany : (g.relations.any fun x =>
        x.from_ = rel.from_ && x.to_ = rel.to_ &&
          x.relationType = rel.relationType) = true
    · exact Or.inl ((relAny_iff g.relations rel).1 hany)
    · exact Or.inr (List.mem_filter.2 ⟨hrel, by simp [hany]⟩)
  refine ⟨by rw [h1], ?_, ?_, by rw [h2], ?_, ?_⟩
  · rw [h1, createEntities_all_present _ _ _ _ hall]
  · rw [h1, createEntities_all_present _ _ _ _ hall]
  · rw [h2, createRelations_all_present _ _ _ _ hallr]
  · rw [h2, createRelations_all_present _ _ _ _ hallr]

/-! ## Folded effect of addObservations -/

/-- The graph-level effect of one `addObservations` item on an existing
entity: append the not-yet-present contents to the first entity bearing the
name (no effect when the entity is absent or nothing is new). -/
def applyAddObsG (g : KnowledgeGraph) (it : ObsItem) : KnowledgeGraph :=
  match g.entities.find? (fun x => x.name = it.entityName) with
  | none => g
  | some e =>
    let newObservations := it.contents.filter (fun c => !strMem c e.observations)
    if newObservations.isEmpty then g
    else upsertEntityG g { e with observations := e.observations ++ newObservations }

theorem names_upsert_existing (g : KnowledgeGraph) (e : Entity) (n : String)
    (h : e.name ∈ g.entities.map Entity.name) :
    n ∈ (upsertEntityG g e).entities.map Entity.name
      ↔ n ∈ g.entities.map Entity.name := by
  rw [show (upsertEntityG g e).entities = replaceFirstByName g.entities e from rfl,
    replaceFirst_names]
  constructor
  · rintro (hn | rfl)
    · exact hn
    · exact h
  · exact Or.inl

theorem names_applyAddObs (g : KnowledgeGraph) (it : ObsItem) (n : String) :
    n ∈ (applyAddObsG g it).entities.map Entity.name
      ↔ n ∈ g.entities.map Entity.name := by
  unfold applyAddObsG
  cases hfind : g.entities.find? (fun x => x.name = it.entityName) with
  | none => rfl
  | some e =>
    have he : e ∈ g.entities := List.mem_of_find?_eq_some hfind
    have hname : e.name ∈ g.entities.map Entity.name := List.mem_map.2 ⟨e, he, rfl⟩
    dsimp only
    split
    · rfl
    · exact names_upsert_existing g _ n hname

theorem addObservations_prefix_fail (pre : List ObsItem) (bad : ObsItem)
    (rest : List ObsItem) (g : KnowledgeGraph) (t now : String)
    (hpre : ∀ it ∈ pre, it.entityName ∈ g.entities.map Entity.name)
    (hbad : bad.entityName ∉ g.entities.map Entity.name) :
    ∃ t', addObservations (storedState g t) (pre ++ bad :: rest) now true
      = (.error (.notFound bad.entityName), storedState (pre.foldl applyAddObsG g) t') := by
  induction pre generalizing g t with
  | nil =>
    have hfind : g.entities.find? (fun x => x.name = bad.entityName) = none := by
      rw [List.find?_eq_none]
      intro x hx hc
      exact hbad (List.mem_map.2 ⟨x, hx, by simpa using hc⟩)
    refine ⟨t, ?_⟩
    simp only [List.nil_append, List.foldl_nil, addObservations,
      getEntityByName_stored, hfind]
  | cons it pre' ih =>
    have hit : it.entityName ∈ g.entities.map Entity.name :=
      hpre it (List.mem_cons_self it pre')
    have hsome : (g.entities.find? (fun x => x.name = it.entityName)).isSome := by
      obtain ⟨x, hx, hxe⟩ := List.mem_map.1 hit
      exact List.find?_isSome.2 ⟨x, hx, by simp [hxe]⟩
    obtain ⟨e, hfind⟩ := Option.isSome_iff_exists.1 hsome
    have he : e ∈ g.entities := List.mem_of_find?_eq_some hfind
    have happly : applyAddObsG g it
        = (if (it.contents.filter (fun c => !strMem c e.observations)).isEmpty then g
           else upsertEntityG g
             { e with observations := e.observations ++
                 it.contents.filter (fun c => !strMem c e.observations) }) := by
      unfold applyAddObsG
      rw [hfind]
    by_cases hempty : (it.contents.filter (fun c => !strMem c e.observations)).isEmpty
    · have hg1 : applyAddObsG g it = g := by rw [happly, if_pos hempty]
      obtain ⟨t', hrec⟩ := ih g t
        (fun x hx => hpre x (List.mem_cons_of_mem it hx)) hbad
      refine ⟨t', ?_⟩
      rw [List.cons_append, List.foldl_cons, hg1]
      simp only [addObservations, getEntityByName_stored, hfind, hempty, if_pos,
        hrec]
    · have hg1 : applyAddObsG g it = upsertEntityG g
          { e with observations := e.observations ++
              it.contents.filter (fun c => !strMem c e.observations) } := by
        rw [happly, if_neg hempty]
      have hname : e.name ∈ g.entities.map Entity.name := List.mem_map.2 ⟨e, he, rfl⟩
      obtain ⟨t', hrec⟩ := ih (applyAddObsG g it) now
        (fun x hx => (names_applyAddObs g it x.entityName).2
          (hpre x (List.mem_cons_of_mem it hx)))
        (fun hc => hbad ((names_applyAddObs g it bad.entityName).1 hc))
      refine ⟨t', ?_⟩
      rw [List.cons_append, List.foldl_cons]
      simp only [addObservations, getEntityByName_stored, hfind, hempty,
        Bool.false_eq_true, if_false, updateEntity_stored, ← hg1, hrec]

/-- C10: addObservations over a batch is not atomic — when the item after
the prefix names a nonexistent entity the call throws
`Entity with name ... not found`, but the observations appended for every
item of the prefix have already been saved to the file and survive: the
graph loaded after the failure is the prefix's writes folded over the
original graph. -/
theorem addObservations_not_atomic (pre : List ObsItem) (bad : ObsItem)
    (rest : List ObsItem) (g : KnowledgeGraph) (t now now2 : String)
    (hpre : ∀ it ∈ pre, it.entityName ∈ g.entities.map Entity.name)
    (hbad : bad.entityName ∉ g.entities.map Entity.name) :
    (addObservations (storedState g t) (pre ++ bad :: rest) now true).1
        = .error (.notFound bad.entityName) ∧
    (loadFullGraph (addObservations (storedState g t) (pre ++ bad :: rest)
        now true).2 now2 true).1 = pre.foldl applyAddObsG g := by
  obtain ⟨t', h⟩ := addObservations_prefix_fail pre bad rest g t now hpre hbad
  rw [h]
  exact ⟨rfl, by rw [loadFullGraph_stored]⟩

/-- Witness for C10: a two-item batch over a one-entity store whose second
item names the missing entity "Z"; the first item's observation "x" is
persisted, the call still errors. -/
theorem addObservations_not_atomic_witness :
    (addObservations (storedState ⟨[⟨"A", "T", []⟩], []⟩ "t0")
        ([⟨"A", ["x"]⟩] ++ ⟨"Z", ["y"]⟩ :: []) "t1" true).1
        = .error (.notFound "Z") ∧
    (loadFullGraph (addObservations (storedState ⟨[⟨"A", "T", []⟩], []⟩ "t0")
        ([⟨"A", ["x"]⟩] ++ ⟨"Z", ["y"]⟩ :: []) "t1" true).2 "t2" true).1
        = [⟨"A", ["x"]⟩].foldl applyAddObsG ⟨[⟨"A", "T", []⟩], []⟩ :=
  addObservations_not_atomic [⟨"A", ["x"]⟩] ⟨"Z", ["y"]⟩ [] ⟨[⟨"A", "T", []⟩], []⟩
    "t0" "t1" "t2" (by decide) (by decide)

theorem find?_replaceFirstByName (l : List Entity) (e1 : Entity) (n : String)
    (h : (l.find? fun x => x.name = n).isSome) (he : e1.name = n) :
    (replaceFirstByName l e1).find? (fun x => x.name = n) = some e1 := by
  induction l with
  | nil => simp at h
  | cons x xs ih =>
    by_cases hx : x.name = e1.name
    · rw [replaceFirstByName, if_pos hx]
      simp [List.find?_cons, he]
    · have hxn : ¬ x.name = n := fun hc => hx (hc.trans he.symm)
      have hpx : ¬ (fun y : Entity => decide (y.name = n)) x = true := by simp [hxn]
      rw [replaceFirstByName, if_neg hx]
      rw [@List.find?_cons_of_neg _ (fun y : Entity => decide (y.name = n)) x
        (replaceFirstByName xs e1) hpx]
      apply ih
      rw [@List.find?_cons_of_neg _ (fun y : Entity => decide (y.name = n)) x xs hpx] at h
      exact h

/-- C8 (amended): add-observations on an existing entity appends exactly
the content strings not already present in the entity's pre-call
observation list (string equality), in input order, and returns exactly
those strings; the resulting list is duplicate-free whenever the input
contents list itself is duplicate-free — but the not-already-present filter
is taken against the pre-call list only, so a string repeated in the input
is appended once per occurrence. -/
theorem addObservations_appends_new_in_order (g : KnowledgeGraph) (n : String)
    (contents : List String) (t now now2 : String) (e : Entity)
    (hfind : g.entities.find? (fun x => x.name = n) = some e) :
    (addObservations (storedState g t) [⟨n, contents⟩] now true).1
        = .ok [⟨n, contents.filter (fun c => !strMem c e.observations)⟩] ∧
    (loadFullGraph (addObservations (storedState g t) [⟨n, contents⟩] now
        true).2 now2 true).1.entities.find? (fun x => x.name = n)
        = some { e with observations :=
            e.observations ++ contents.filter (fun c => !strMem c e.observations) } ∧
    (e.observations.Nodup → contents.Nodup →
      (e.observations ++ contents.filter (fun c => !strMem c e.observations)).Nodup) := by
  have hen : e.name = n := by
    have := List.find?_some hfind
    simpa using this
  have hnodup : e.observations.Nodup → contents.Nodup →
      (e.observations ++ contents.filter (fun c => !strMem c e.observations)).Nodup := by
    intro h1 h2
    refine List.Nodup.append h1 (h2.filter _) ?_
    rw [List.disjoint_left]
    intro a ha hc
    have := (List.mem_filter.1 hc).2
    rw [Bool.not_eq_true', ← Bool.not_eq_true] at this
    exact this ((strMem_iff a e.observations).2 ha)
  by_cases hempty : (contents.filter (fun c => !strMem c e.observations)).isEmpty
  · have hnil : contents.filter (fun c => !strMem c e.observations) = [] :=
      List.isEmpty_iff.1 hempty
    refine ⟨?_, ?_, hnodup⟩
    · simp only [addObservations, getEntityByName_stored, hfind, hnil]
      simp
    · simp only [addObservations, getEntityByName_stored, hfind, hnil]
      simp [loadFullGraph_stored, hfind]
  · have hfs : (g.entities.find? fun x => x.name = n).isSome := by rw [hfind]; rfl
    refine ⟨?_, ?_, hnodup⟩
    · simp only [addObservations, getEntityByName_stored, hfind, hempty,
        Bool.false_eq_true, if_false, updateEntity_stored]
    · simp only [addObservations, getEntityByName_stored, hfind, hempty,
        Bool.false_eq_true, if_false, updateEntity_stored, loadFullGraph_stored]
      exact find?_replaceFirstByName g.entities _ n hfs hen

/-- Witness for C8's amended theorem: adding `["b", "c", "a"]` to an entity
whose observations are `["a"]` appends `["b", "c"]` in order. -/
theorem addObservations_appends_new_in_order_witness :
    (addObservations (storedState ⟨[⟨"A", "T", ["a"]⟩], []⟩ "t0")
        [⟨"A", ["b", "c", "a"]⟩] "t1" true).1
        = .ok [⟨"A", (["b", "c", "a"].filter
            (fun c => !strMem c (["a"] : List String)))⟩] ∧
    (loadFullGraph (addObservations (storedState ⟨[⟨"A", "T", ["a"]⟩], []⟩ "t0")
        [⟨"A", ["b", "c", "a"]⟩] "t1" true).2 "t2" true).1.entities.find?
        (fun x => x.name = "A")
        = some ⟨"A", "T", ["a"] ++ ["b", "c", "a"].filter
            (fun c => !strMem c (["a"] : List String))⟩ ∧
    ((["a"] : List String).Nodup → (["b", "c", "a"] : List String).Nodup →
      (["a"] ++ ["b", "c", "a"].filter
        (fun c => !strMem c (["a"] : List String))).Nodup) :=
  addObservations_appends_new_in_order ⟨[⟨"A", "T", ["a"]⟩], []⟩ "A"
    ["b", "c", "a"] "t0" "t1" "t2" ⟨"A", "T", ["a"]⟩ (by decide)

/-- Counterexample to C8 as stated: adding `["b", "b"]` to an entity whose
observations are `["a"]` stores `["a", "b", "b"]` — the resulting
observation list contains a duplicate, so the claimed duplicate-freedom
under repeated input strings fails (and both copies are reported as
added). -/
theorem addObservations_duplicate_input_counterexample :
    (addObservations (storedState ⟨[⟨"A", "T", ["a"]⟩], []⟩ "t0")
        [⟨"A", ["b", "b"]⟩] "t1" true).1 = .ok [⟨"A", ["b", "b"]⟩] ∧
    (loadFullGraph (addObservations (storedState ⟨[⟨"A", "T", ["a"]⟩], []⟩ "t0")
        [⟨"A", ["b", "b"]⟩] "t1" true).2 "t2" true).1.entities.find?
        (fun x => x.name = "A") = some ⟨"A", "T", ["a", "b", "b"]⟩ ∧
    ¬ (Entity.observations ⟨"A", "T", ["a", "b", "b"]⟩).Nodup := by
  refine ⟨rfl, by decide, by decide⟩

/-! ## Serialization round-trip of the index (loadIndex's parse path) -/

/-- Key list of a modelled JS `Map`. -/
def mapKeys {α : Type} (m : List (String × α)) : List String := m.map Prod.fst

theorem mapSet_of_not_mem {α : Type} (m : List (String × α)) (k : String) (v : α)
    (h : k ∉ mapKeys m) : mapSet m k v = m ++ [(k, v)] := by
  induction m with
  | nil => rfl
  | cons p rest ih =>
    have h1 : ¬ p.1 = k := by
      intro hc
      exact h (by simp [mapKeys, hc])
    have h2 : k ∉ mapKeys rest := by
      intro hc
      exact h (by simp [mapKeys] at hc ⊢; exact Or.inr hc)
    rw [show (p :: rest : List (String × α)) = (p.1, p.2) :: rest from rfl]
    rw [mapSet, if_neg h1, ih h2]
    simp

theorem mapKeys_mapSet {α : Type} (m : List (String × α)) (k : String) (v : α) :
    mapKeys (mapSet m k v)
      = if k ∈ mapKeys m then mapKeys m else mapKeys m ++ [k] := by
  induction m with
  | nil => simp [mapSet, mapKeys]
  | cons p rest ih =>
    obtain ⟨pk, pv⟩ := p
    by_cases h1 : pk = k
    · subst h1
      rw [mapSet, if_pos rfl]
      simp [mapKeys]
    · have h2 : ¬ k = pk := fun hc => h1 hc.symm
      rw [mapSet, if_neg h1]
      show pk :: mapKeys (mapSet rest k v) = _
      rw [ih]
      by_cases h3 : k ∈ mapKeys rest
      · rw [if_pos h3, if_pos (show k ∈ mapKeys ((pk, pv) :: rest) from
          List.mem_cons.2 (Or.inr h3))]
        rfl
      · have hnm : k ∉ mapKeys ((pk, pv) :: rest) := by
          intro hc
          rcases List.mem_cons.1 hc with hc1 | hc2
          · exact h2 hc1
          · exact h3 hc2
        rw [if_neg h3, if_neg hnm]
        rfl

theorem nodup_mapKeys_mapSet {α : Type} (m : List (String × α)) (k : String)
    (v : α) (h : (mapKeys m).Nodup) : (mapKeys (mapSet m k v)).Nodup := by
  rw [mapKeys_mapSet]
  by_cases h3 : k ∈ mapKeys m
  · simpa [h3] using h
  · simp only [h3, if_false]
    exact List.Nodup.append h (List.nodup_singleton k) (by simp [List.disjoint_left, h3])

theorem mapKeys_mapModify {α : Type} (m : List (String × α)) (k : String)
    (f : α → α) : mapKeys (mapModify m k f) = mapKeys m := by
  induction m with
  | nil => rfl
  | cons p rest ih =>
    by_cases h1 : p.1 = k
    · rw [show (p :: rest : List (String × α)) = (p.1, p.2) :: rest from rfl]
      rw [mapModify, if_pos h1]
      simp [mapKeys]
    · rw [show (p :: rest : List (String × α)) = (p.1, p.2) :: rest from rfl]
      rw [mapModify, if_neg h1]
      simp [mapKeys] at ih ⊢
      exact ih

theorem foldl_mapSet_append {α : Type} (l acc : List (String × α))
    (h : (mapKeys (acc ++ l)).Nodup) :
    List.foldl (fun m kv => mapSet m kv.1 kv.2) acc l = acc ++ l := by
  induction l generalizing acc with
  | nil => simp
  | cons kv rest ih =>
    have hk : kv.1 ∉ mapKeys acc := by
      intro hc
      rw [mapKeys, List.map_append] at h
      obtain ⟨-, h2⟩ := List.nodup_append.1 h
      exact h2.2 hc (by simp)
    rw [List.foldl_cons, mapSet_of_not_mem acc kv.1 kv.2 hk]
    have hperm : ((acc ++ [kv]) ++ rest) = acc ++ kv :: rest := by simp
    rw [show (kv.1, kv.2) = kv from rfl]
    rw [ih (acc ++ [kv]) (by rw [hperm]; exact h)]
    simp

theorem nodup_setAdd (s : List String) (x : String) (h : s.Nodup) :
    (setAdd s x).Nodup := by
  unfold setAdd
  split
  · exact h
  · rename_i hn
    refine List.Nodup.append h (List.nodup_singleton x) ?_
    simp only [List.disjoint_left]
    intro a ha hc
    rw [List.mem_singleton.1 hc] at ha
    exact absurd ((strMem_iff x s).2 ha) (by simpa using hn)

theorem foldl_setAdd_append (l acc : List String) (h : (acc ++ l).Nodup) :
    List.foldl setAdd acc l = acc ++ l := by
  induction l generalizing acc with
  | nil => simp
  | cons x rest ih =>
    have hx : x ∉ acc := by
      obtain ⟨-, h2⟩ := List.nodup_append.1 h
      exact fun hc => h2.2 hc (by simp)
    have hadd : setAdd acc x = acc ++ [x] := by
      unfold setAdd
      rw [if_neg]
      intro hc
      exact hx ((strMem_iff x acc).1 hc)
    rw [List.foldl_cons, hadd, ih (acc ++ [x]) (by simpa using h)]
    simp

theorem jsDedup_of_nodup (l : List String) (h : l.Nodup) : jsDedup l = l := by
  unfold jsDedup
  simpa using foldl_setAdd_append l [] (by simpa using h)

theorem foldl_mapSet_dedup_append (l acc : List (String × List String))
    (hk : (mapKeys (acc ++ l)).Nodup) (hv : ∀ kv ∈ l, kv.2.Nodup) :
    List.foldl (fun m kv => mapSet m kv.1 (jsDedup kv.2)) acc l = acc ++ l := by
  induction l generalizing acc with
  | nil => simp
  | cons kv rest ih =>
    have hkk : kv.1 ∉ mapKeys acc := by
      intro hc
      rw [mapKeys, List.map_append] at hk
      obtain ⟨-, h2⟩ := List.nodup_append.1 hk
      exact h2.2 hc (by simp)
    have hdp : jsDedup kv.2 = kv.2 := jsDedup_of_nodup kv.2 (hv kv (by simp))
    rw [List.foldl_cons, hdp, mapSet_of_not_mem acc kv.1 kv.2 hkk]
    have hperm : ((acc ++ [kv]) ++ rest) = acc ++ kv :: rest := by simp
    rw [show (kv.1, kv.2) = kv from rfl]
    rw [ih (acc ++ [kv]) (by rw [hperm]; exact hk) (fun x hx => hv x (by simp [hx]))]
    simp

theorem mapFind_mem {α : Type} (m : List (String × α)) (k : String) (w : α)
    (h : mapFind m k = some w) : (k, w) ∈ m := by
  induction m with
  | nil => simp [mapFind] at h
  | cons p rest ih =>
    obtain ⟨pk, pv⟩ := p
    by_cases h1 : pk = k
    · subst h1
      rw [mapFind, if_pos rfl] at h
      injection h with h2
      subst h2
      exact List.mem_cons.2 (Or.inl rfl)
    · rw [mapFind, if_neg h1] at h
      exact List.mem_cons.2 (Or.inr (ih h))

theorem mem_mapSet {α : Type} (m : List (String × α)) (k : String) (v : α)
    (kv : String × α) (h : kv ∈ mapSet m k v) : kv ∈ m ∨ kv.2 = v := by
  induction m with
  | nil =>
    simp [mapSet] at h
    exact Or.inr (by simp [h])
  | cons p rest ih =>
    obtain ⟨pk, pv⟩ := p
    by_cases h1 : pk = k
    · rw [mapSet, if_pos h1] at h
      rcases List.mem_cons.1 h with rfl | h2
      · exact Or.inr rfl
      · exact Or.inl (List.mem_cons.2 (Or.inr h2))
    · rw [mapSet, if_neg h1] at h
      rcases List.mem_cons.1 h with rfl | h2
      · exact Or.inl (List.mem_cons.2 (Or.inl rfl))
      · rcases ih h2 with h3 | h3
        · exact Or.inl (List.mem_cons.2 (Or.inr h3))
        · exact Or.inr h3

theorem indexEntities_fst_nodup (ents : List Entity)
    (accE : List (String × EntityIndex)) (accT : List (String × List String))
    (c : Nat) (h : (mapKeys accE).Nodup) :
    (mapKeys (List.foldl indexEntityStep (accE, accT, c) ents).1).Nodup := by
  induction ents generalizing accE accT c with
  | nil => exact h
  | cons e rest ih =>
    rw [List.foldl_cons]
    exact ih _ _ _ (nodup_mapKeys_mapSet accE e.name _ h)

theorem indexEntities_typeIndices_nodup (ents : List Entity)
    (accE : List (String × EntityIndex)) (accT : List (String × List String))
    (c : Nat) (hk : (mapKeys accT).Nodup) (hv : ∀ kv ∈ accT, kv.2.Nodup) :
    (mapKeys (List.foldl indexEntityStep (accE, accT, c) ents).2.1).Nodup ∧
    (∀ kv ∈ (List.foldl indexEntityStep (accE, accT, c) ents).2.1, kv.2.Nodup) := by
  induction ents generalizing accE accT c with
  | nil => exact ⟨hk, hv⟩
  | cons e rest ih =>
    rw [List.foldl_cons]
    have hnew : (setAdd (mapFindD accT e.entityType []) e.name).Nodup := by
      unfold mapFindD
      cases hf : mapFind accT e.entityType with
      | none => simp [nodup_setAdd]
      | some w =>
        exact nodup_setAdd w e.name (hv (e.entityType, w) (mapFind_mem accT _ w hf))
    refine ih _ _ _ (nodup_mapKeys_mapSet accT e.entityType _ hk) ?_
    intro kv hkv
    rcases mem_mapSet accT e.entityType _ kv hkv with h1 | h1
    · exact hv kv h1
    · rw [h1]; exact hnew

theorem indexRelations_fst_keys (rels : List Relation)
    (acc : List (String × EntityIndex) × List (String × List (String × String))) :
    mapKeys (indexRelations rels acc).1 = mapKeys acc.1 := by
  induction rels generalizing acc with
  | nil => rfl
  | cons r rest ih =>
    show mapKeys (indexRelations rest (indexRelationStep acc r)).1 = _
    rw [ih]
    simp [indexRelationStep, mapKeys_mapModify]

theorem indexRelations_snd_nodup (rels : List Relation)
    (acc : List (String × EntityIndex) × List (String × List (String × String)))
    (h : (mapKeys acc.2).Nodup) : (mapKeys (indexRelations rels acc).2).Nodup := by
  induction rels generalizing acc with
  | nil => exact h
  | cons r rest ih =>
    show (mapKeys (indexRelations rest (indexRelationStep acc r)).2).Nodup
    exact ih _ (nodup_mapKeys_mapSet acc.2 r.relationType _ h)

theorem buildIndex_entity_keys_nodup (g : KnowledgeGraph) (t : String) :
    (mapKeys (buildIndexFromGraph g t).entityIndices).Nodup := by
  show (mapKeys (indexRelations g.relations ((indexEntities g.entities).1, [])).1).Nodup
  rw [indexRelations_fst_keys]
  exact indexEntities_fst_nodup g.entities [] [] 0 (by simp [mapKeys])

theorem buildIndex_type_nodup (g : KnowledgeGraph) (t : String) :
    (mapKeys (buildIndexFromGraph g t).typeIndices).Nodup ∧
    (∀ kv ∈ (buildIndexFromGraph g t).typeIndices, kv.2.Nodup) := by
  show (mapKeys (List.foldl indexEntityStep ([], [], 0) g.entities).2.1).Nodup ∧ _
  exact indexEntities_typeIndices_nodup g.entities [] [] 0 (by simp [mapKeys]) (by simp)

theorem buildIndex_rel_keys_nodup (g : KnowledgeGraph) (t : String) :
    (mapKeys (buildIndexFromGraph g t).relationIndices).Nodup := by
  show (mapKeys (indexRelations g.relations ((indexEntities g.entities).1, [])).2).Nodup
  exact indexRelations_snd_nodup g.relations _ (by simp [mapKeys])

/-- The map-reconstruction of `loadIndex`'s markers-present path is the
identity on any index `buildIndexFromGraph` produced: the serialized key
lists are duplicate-free, the string sets are duplicate-free (so
`new Set(...)` reproduces them), and the object sets pass through
verbatim. -/
theorem reconstructIndex_buildIndex (g : KnowledgeGraph) (t : String) :
    reconstructIndex (buildIndexFromGraph g t) = buildIndexFromGraph g t := by
  have h1 := buildIndex_entity_keys_nodup g t
  have h2 := buildIndex_type_nodup g t
  have h3 := buildIndex_rel_keys_nodup g t
  have e1 : (buildIndexFromGraph g t).entityIndices.foldl
      (fun m kv => mapSet m kv.1 kv.2) [] = (buildIndexFromGraph g t).entityIndices := by
    simpa using foldl_mapSet_append (buildIndexFromGraph g t).entityIndices []
      (by simpa using h1)
  have e2 : (buildIndexFromGraph g t).typeIndices.foldl
      (fun m kv => mapSet m kv.1 (jsDedup kv.2)) []
      = (buildIndexFromGraph g t).typeIndices := by
    simpa using foldl_mapSet_dedup_append (buildIndexFromGraph g t).typeIndices []
      (by simpa using h2.1) h2.2
  have e3 : (buildIndexFromGraph g t).relationIndices.foldl
      (fun m kv => mapSet m kv.1 kv.2) []
      = (buildIndexFromGraph g t).relationIndices := by
    simpa using foldl_mapSet_append (buildIndexFromGraph g t).relationIndices []
      (by simpa using h3)
  unfold reconstructIndex
  rw [e1, e2, e3]

/-- C9 (amended): on a file written by a successful save at time `t0`,
loadIndex's markers-present parsing path reproduces the saved Index
verbatim — equal to what rebuildIndex (via buildIndexFromGraph over the
same data section) would construct at time `t1` in every component except
`metadata.lastUpdated`, which keeps the save time `t0` on the parse path
but is regenerated to `t1` by a rebuild. -/
theorem loadIndex_parse_path_vs_rebuild (g : KnowledgeGraph) (t0 tC t1 : String) :
    (loadIndex (freshState (savedFile g (buildIndexFromGraph g t0)) tC) t1 true).1
        = buildIndexFromGraph g t0 ∧
    (rebuildIndex (freshState (savedFile g (buildIndexFromGraph g t0)) tC) t1 true).1
        = .ok (buildIndexFromGraph g t1) ∧
    buildIndexFromGraph g t0
        = { buildIndexFromGraph g t1 with metadata :=
            { (buildIndexFromGraph g t1).metadata with lastUpdated := t0 } } := by
  refine ⟨?_, ?_, rfl⟩
  · show reconstructIndex (buildIndexFromGraph g t0) = buildIndexFromGraph g t0
    exact reconstructIndex_buildIndex g t0
  · show Except.ok (buildIndexFromGraph
      (parseLegacyFormat (dataLinesOf g)) t1) = _
    rw [parseLegacyFormat_dataLinesOf]

/-- Counterexample to C9 as stated: on the one-entity graph saved at time
"T0", the index loadIndex's parse path returns differs from the index
rebuildIndex constructs at time "T1" — their `metadata.lastUpdated` fields
disagree, so they are not byte-for-byte equivalent including metadata. -/
theorem loadIndex_parse_path_not_byte_equal :
    (rebuildIndex (freshState (savedFile ⟨[⟨"A", "T", []⟩], []⟩
        (buildIndexFromGraph ⟨[⟨"A", "T", []⟩], []⟩ "T0")) "C") "T1" true).1
      = .ok (buildIndexFromGraph ⟨[⟨"A", "T", []⟩], []⟩ "T1") ∧
    (loadIndex (freshState (savedFile ⟨[⟨"A", "T", []⟩], []⟩
        (buildIndexFromGraph ⟨[⟨"A", "T", []⟩], []⟩ "T0")) "C") "T1" true).1
      ≠ buildIndexFromGraph ⟨[⟨"A", "T", []⟩], []⟩ "T1" := by
  refine ⟨rfl, by decide⟩

/-! ## The four regexes and the split never fire on a whitespace-free
query -/

theorem matchCI_rest_subset (kw : List Char) :
    ∀ (s rest : List Char), matchCI kw s = some rest → ∀ c ∈ rest, c ∈ s := by
  induction kw with
  | nil =>
    intro s rest h
    rw [matchCI] at h
    injection h with h
    subst h
    exact fun c hc => hc
  | cons k ks ih =>
    intro s rest h
    cases s with
    | nil => exact absurd h (by rw [matchCI]; simp)
    | cons c cs =>
      rw [matchCI] at h
      split at h
      · intro x hx
        exact List.mem_cons.2 (Or.inr (ih cs rest h x hx))
      · exact absurd h (by simp)

theorem matchTokenAt_none_of_noSpace (kw s : List Char)
    (h : ∀ c ∈ s, isSpaceChar c = false) : matchTokenAt kw s = none := by
  unfold matchTokenAt
  cases hm : matchCI kw s with
  | none => rfl
  | some rest =>
    have hsub := matchCI_rest_subset kw s rest hm
    have hemp : (rest.takeWhile isSpaceChar).isEmpty = true := by
      cases rest with
      | nil => rfl
      | cons c cs =>
        have hc := h c (hsub c (List.mem_cons_self c cs))
        simp [List.takeWhile_cons, hc]
    simp [hemp]

theorem findCapture_none_of_noSpace (kw : List Char) (s : List Char)
    (h : ∀ c ∈ s, isSpaceChar c = false) : findCapture kw s = none := by
  induction s with
  | nil => exact matchTokenAt_none_of_noSpace kw [] (by simp)
  | cons c cs ih =>
    rw [findCapture, matchTokenAt_none_of_noSpace kw (c :: cs) h]
    exact ih (fun x hx => h x (List.mem_cons_of_mem c hx))

theorem jsToLower_eq_space (c : Char) (h : jsToLower c = ' ') : c = ' ' := by
  unfold jsToLower at h
  split at h <;> first
    | (exact absurd h (by decide))
    | exact h

theorem leadMatch_mem (n : List Char) :
    ∀ (hay : List Char), leadMatch n hay = true → ∀ c ∈ n, c ∈ hay := by
  induction n with
  | nil => simp
  | cons a as ih =>
    intro hay hl c hc
    cases hay with
    | nil => exact absurd hl (by rw [leadMatch]; simp)
    | cons b bs =>
      rw [leadMatch, Bool.and_eq_true] at hl
      obtain ⟨h1, h2⟩ := hl
      rcases List.mem_cons.1 hc with rfl | hc2
      · exact List.mem_cons.2 (Or.inl (by simpa using h1))
      · exact List.mem_cons.2 (Or.inr (ih bs h2 c hc2))

theorem startsWithTypeSp_false_of_noSpace (s : String)
    (h : ∀ c ∈ s.toList, isSpaceChar c = false) : startsWithTypeSp s = false := by
  rw [← Bool.not_eq_true]
  intro hc
  have hmem : (' ' : Char) ∈ lowerList s :=
    leadMatch_mem "type ".toList (lowerList s) hc ' ' (by decide)
  obtain ⟨c, hcs, hlc⟩ := List.mem_map.1 hmem
  have hce := jsToLower_eq_space c hlc
  rw [hce] at hcs
  have := h ' ' hcs
  simp [isSpaceChar] at this

theorem splitTermsGo_noSpace (cs : List Char)
    (h : ∀ c ∈ cs, isSpaceChar c = false) :
    ∀ cur, (splitTermsGo cs cur).length ≤ 1 := by
  induction cs with
  | nil =>
    intro cur
    rw [splitTermsGo]
    split <;> simp
  | cons c rest ih =>
    intro cur
    have hc := h c (List.mem_cons_self c rest)
    rw [splitTermsGo, if_neg (by simp [hc])]
    exact ih (fun x hx => h x (List.mem_cons_of_mem c hx)) (c :: cur)

theorem mem_jsTrim (s : String) (c : Char) (h : c ∈ (jsTrim s).toList) :
    c ∈ s.toList := by
  unfold jsTrim at h
  rw [show (String.mk (((s.toList.dropWhile isSpaceChar).reverse.dropWhile
      isSpaceChar).reverse)).toList
    = ((s.toList.dropWhile isSpaceChar).reverse.dropWhile isSpaceChar).reverse
    from rfl] at h
  have h1 := List.mem_reverse.1 h
  have h2 := (List.dropWhile_sublist isSpaceChar).subset h1
  have h3 := List.mem_reverse.1 h2
  exact (List.dropWhile_sublist isSpaceChar).subset h3

theorem splitTerms_noSpace (q : String)
    (h : ∀ c ∈ q.toList, isSpaceChar c = false) :
    ¬ (splitTerms (jsTrim q)).length > 1 := by
  intro hc
  have hle := splitTermsGo_noSpace (jsTrim q).toList
    (fun c hcc => h c (mem_jsTrim q c hcc)) []
  rw [show splitTerms (jsTrim q) = splitTermsGo (jsTrim q).toList [] from rfl] at hc
  omega

/-! ## searchEntitiesByName and the single-term search path -/

theorem searchEntitiesByName_stored_eq (g : KnowledgeGraph) (t q now : String)
    (wOk : Bool) :
    searchEntitiesByName (storedState g t) q now wOk
      = if (((buildIndexFromGraph g t).entityIndices.map Prod.fst).filter
            (fun n => includesCI n q)).isEmpty
        then ([], storedState g t)
        else (g.entities.filter (fun e => strMem e.name
           (((buildIndexFromGraph g t).entityIndices.map Prod.fst).filter
             (fun n => includesCI n q))),
          storedState g t) := by
  simp only [searchEntitiesByName, ensureLoaded_stored, loadFullGraph_stored]
  rfl

theorem searchEntitiesByName_stored_snd (g : KnowledgeGraph) (t q now : String)
    (wOk : Bool) :
    (searchEntitiesByName (storedState g t) q now wOk).2 = storedState g t := by
  rw [searchEntitiesByName_stored_eq]
  split <;> rfl

theorem searchEntitiesByName_stored_mem (g : KnowledgeGraph) (t q now : String)
    (wOk : Bool) (e : Entity) :
    e ∈ (searchEntitiesByName (storedState g t) q now wOk).1 ↔
      e ∈ g.entities ∧ includesCI e.name q = true := by
  have hkeys : ∀ n, n ∈ (buildIndexFromGraph g t).entityIndices.map Prod.fst
      ↔ n ∈ g.entities.map Entity.name := fun n => by
    rw [← mapFind_isSome_iff_mem]
    exact buildIndex_entity_key g t n
  rw [searchEntitiesByName_stored_eq]
  by_cases hemp : (((buildIndexFromGraph g t).entityIndices.map Prod.fst).filter
      (fun n => includesCI n q)).isEmpty
  · rw [if_pos hemp]
    have hnil := List.isEmpty_iff.1 hemp
    constructor
    · intro hc
      exact absurd hc (List.not_mem_nil e)
    · rintro ⟨he, hinc⟩
      exfalso
      have hkey : e.name ∈ (buildIndexFromGraph g t).entityIndices.map Prod.fst :=
        (hkeys e.name).2 (List.mem_map.2 ⟨e, he, rfl⟩)
      have hmf : e.name ∈ (((buildIndexFromGraph g t).entityIndices.map
          Prod.fst).filter (fun n => includesCI n q)) :=
        List.mem_filter.2 ⟨hkey, hinc⟩
      rw [hnil] at hmf
      exact List.not_mem_nil _ hmf
  · rw [if_neg hemp]
    show e ∈ g.entities.filter _ ↔ _
    rw [List.mem_filter, strMem_iff, List.mem_filter]
    constructor
    · rintro ⟨he, -, hinc⟩
      exact ⟨he, hinc⟩
    · rintro ⟨he, hinc⟩
      exact ⟨he, (hkeys e.name).2 (List.mem_map.2 ⟨e, he, rfl⟩), hinc⟩

/-- C3 (amended): for every stored graph and every whitespace-free query
string q, searchNodes(q) takes the single-term path, which matches q
case-insensitively against the entity NAME only (via the index keys) — not
against entityType or observations — and returns those entities together
with every relation whose two endpoints both name matched entities. -/
theorem searchNodes_single_term_name_only (g : KnowledgeGraph) (t q now : String)
    (h : ∀ c ∈ q.toList, isSpaceChar c = false) :
    (∀ e, e ∈ (searchNodes (storedState g t) q now true).1.entities ↔
        e ∈ g.entities ∧ includesCI e.name q = true) ∧
    (∀ r, r ∈ (searchNodes (storedState g t) q now true).1.relations ↔
        r ∈ g.relations ∧
        (∃ e1 ∈ (searchNodes (storedState g t) q now true).1.entities,
          e1.name = r.from_) ∧
        (∃ e2 ∈ (searchNodes (storedState g t) q now true).1.entities,
          e2.name = r.to_)) := by
  have h1 : findCapture "relations".toList q.toList = none :=
    findCapture_none_of_noSpace _ _ h
  have h2 : findCapture "from".toList q.toList = none :=
    findCapture_none_of_noSpace _ _ h
  have h3 : findCapture "to".toList q.toList = none :=
    findCapture_none_of_noSpace _ _ h
  have h4 : findCapture "type".toList q.toList = none :=
    findCapture_none_of_noSpace _ _ h
  have h5 : startsWithTypeSp q = false := startsWithTypeSp_false_of_noSpace q h
  have h6 := splitTerms_noSpace q h
  have hsn : searchNodes (storedState g t) q now true
      = (⟨(searchEntitiesByName (storedState g t) q now true).1,
          g.relations.filter (fun rel =>
            strMem rel.from_ ((searchEntitiesByName (storedState g t) q now
              true).1.map Entity.name) &&
            strMem rel.to_ ((searchEntitiesByName (storedState g t) q now
              true).1.map Entity.name))⟩,
         storedState g t) := by
    simp only [searchNodes, loadIndex_stored, h1, h2, h3, h4, h5,
      Option.isSome_none, Bool.or_self, Bool.false_eq_true, if_false,
      if_neg h6, searchEntitiesByName_stored_snd, loadFullGraph_stored]
  rw [hsn]
  constructor
  · intro e
    exact searchEntitiesByName_stored_mem g t q now true e
  · intro r
    show r ∈ g.relations.filter _ ↔ _
    rw [List.mem_filter, Bool.and_eq_true, strMem_iff, strMem_iff]
    simp only [List.mem_map]

/-- Witness for C3's amended theorem: query "ali" over a two-entity graph
matches "Alice" by name, case-insensitively. -/
theorem searchNodes_single_term_name_only_witness :
    (∀ e, e ∈ (searchNodes (storedState ⟨[⟨"Alice", "person", []⟩,
        ⟨"Bob", "person", []⟩], []⟩ "t0") "ali" "t1" true).1.entities ↔
        e ∈ (⟨[⟨"Alice", "person", []⟩, ⟨"Bob", "person", []⟩], []⟩ :
          KnowledgeGraph).entities ∧ includesCI e.name "ali" = true) ∧
    (∀ r, r ∈ (searchNodes (storedState ⟨[⟨"Alice", "person", []⟩,
        ⟨"Bob", "person", []⟩], []⟩ "t0") "ali" "t1" true).1.relations ↔
        r ∈ (⟨[⟨"Alice", "person", []⟩, ⟨"Bob", "person", []⟩], []⟩ :
          KnowledgeGraph).relations ∧
        (∃ e1 ∈ (searchNodes (storedState ⟨[⟨"Alice", "person", []⟩,
          ⟨"Bob", "person", []⟩], []⟩ "t0") "ali" "t1" true).1.entities,
          e1.name = r.from_) ∧
        (∃ e2 ∈ (searchNodes (storedState ⟨[⟨"Alice", "person", []⟩,
          ⟨"Bob", "person", []⟩], []⟩ "t0") "ali" "t1" true).1.entities,
          e2.name = r.to_)) :=
  searchNodes_single_term_name_only
    ⟨[⟨"Alice", "person", []⟩, ⟨"Bob", "person", []⟩], []⟩ "t0" "ali" "t1"
    (by decide)

/-- Counterexample to C3 as stated: entity "Alice" has entityType "person",
the single-term query "person" is a case-insensitive substring of that
entityType (and would also match an observation "a person" of "Carol"), yet
searchNodes returns neither — the single-term path matches names only. -/
theorem searchNodes_single_term_claim_false :
    (⟨"Alice", "person", []⟩ : Entity) ∈
      (⟨[⟨"Alice", "person", []⟩, ⟨"Carol", "x", ["a person"]⟩], []⟩ :
        KnowledgeGraph).entities ∧
    includesCI (Entity.entityType ⟨"Alice", "person", []⟩) "person" = true ∧
    includesCI "a person" "person" = true ∧
    (searchNodes (storedState ⟨[⟨"Alice", "person", []⟩,
        ⟨"Carol", "x", ["a person"]⟩], []⟩ "t0") "person" "t1" true).1.entities
      = [] := by
  refine ⟨by decide, by decide, by decide, by decide⟩

/-! ## The relation-token branch of searchNodes -/

theorem mem_optFilter (o : Option String) (p : String → Relation → Bool)
    (l : List Relation) (r : Relation) :
    r ∈ optFilter o p l ↔ r ∈ l ∧ ∀ n, o = some n → p n r = true := by
  cases o with
  | none => simp [optFilter]
  | some n => simp [optFilter, List.mem_filter]

theorem mem_relationTokenFilter (relations : List Relation)
    (relationMatch fromMatch toMatch typeMatch : Option String) (r : Relation) :
    r ∈ relationTokenFilter relations relationMatch fromMatch toMatch typeMatch
      ↔ r ∈ relations ∧
        (∀ n, relationMatch = some n → (r.from_ = n ∨ r.to_ = n)) ∧
        (∀ n, fromMatch = some n → r.from_ = n) ∧
        (∀ n, toMatch = some n → r.to_ = n) ∧
        (∀ n, typeMatch = some n → includesCI r.relationType n = true) := by
  unfold relationTokenFilter
  rw [mem_optFilter, mem_optFilter, mem_optFilter, mem_optFilter]
  constructor
  · rintro ⟨⟨⟨⟨hm, hrel⟩, hfrom⟩, hto⟩, htype⟩
    refine ⟨hm, ?_, ?_, ?_, htype⟩
    · intro n hn
      have := hrel n hn
      rw [Bool.or_eq_true, decide_eq_true_eq, decide_eq_true_eq] at this
      exact this
    · intro n hn
      have := hfrom n hn
      rwa [decide_eq_true_eq] at this
    · intro n hn
      have := hto n hn
      rwa [decide_eq_true_eq] at this
  · rintro ⟨hm, hrel, hfrom, hto, htype⟩
    refine ⟨⟨⟨⟨hm, ?_⟩, ?_⟩, ?_⟩, htype⟩
    · intro n hn
      rw [Bool.or_eq_true, decide_eq_true_eq, decide_eq_true_eq]
      exact hrel n hn
    · intro n hn
      rw [decide_eq_true_eq]
      exact hfrom n hn
    · intro n hn
      rw [decide_eq_true_eq]
      exact hto n hn

/-- C4 (amended): any query matching one of the four relation-token
regexes — which includes EVERY query of the form `type T` with a word-char
type name, since it matches `/type\s+(\w+)/i` — is handled by
relation-first filtering: the relation set is filtered by the captured
endpoint/type conditions and the entity set is exactly the entities named
by the surviving endpoints.  Entity-substring matching (and the dedicated
type-index branch) is skipped entirely for such queries. -/
theorem searchNodes_relation_token_first (g : KnowledgeGraph)
    (t q now : String)
    (hm : ((findCapture "relations".toList q.toList).isSome ||
           (findCapture "from".toList q.toList).isSome ||
           (findCapture "to".toList q.toList).isSome ||
           (findCapture "type".toList q.toList).isSome) = true) :
    (∀ r, r ∈ (searchNodes (storedState g t) q now true).1.relations ↔
        r ∈ g.relations ∧
        (∀ n, findCapture "relations".toList q.toList = some n →
          (r.from_ = n ∨ r.to_ = n)) ∧
        (∀ n, findCapture "from".toList q.toList = some n → r.from_ = n) ∧
        (∀ n, findCapture "to".toList q.toList = some n → r.to_ = n) ∧
        (∀ n, findCapture "type".toList q.toList = some n →
          includesCI r.relationType n = true)) ∧
    (∀ e, e ∈ (searchNodes (storedState g t) q now true).1.entities ↔
        e ∈ g.entities ∧
        ∃ r ∈ (searchNodes (storedState g t) q now true).1.relations,
          e.name = r.from_ ∨ e.name = r.to_) := by
  have hsn : searchNodes (storedState g t) q now true
      = (⟨g.entities.filter (fun e => strMem e.name
            ((relationTokenFilter g.relations
                (findCapture "relations".toList q.toList)
                (findCapture "from".toList q.toList)
                (findCapture "to".toList q.toList)
                (findCapture "type".toList q.toList)).map Relation.from_ ++
             (relationTokenFilter g.relations
                (findCapture "relations".toList q.toList)
                (findCapture "from".toList q.toList)
                (findCapture "to".toList q.toList)
                (findCapture "type".toList q.toList)).map Relation.to_)),
          relationTokenFilter g.relations
            (findCapture "relations".toList q.toList)
            (findCapture "from".toList q.toList)
            (findCapture "to".toList q.toList)
            (findCapture "type".toList q.toList)⟩,
         storedState g t) := by
    simp only [searchNodes, loadIndex_stored, loadFullGraph_stored, hm, if_true]
  rw [hsn]
  constructor
  · intro r
    exact mem_relationTokenFilter g.relations _ _ _ _ r
  · intro e
    show e ∈ g.entities.filter _ ↔ _
    rw [List.mem_filter, strMem_iff]
    simp only [List.mem_append, List.mem_map]
    constructor
    · rintro ⟨he, hend⟩
      refine ⟨he, ?_⟩
      rcases hend with ⟨r, hr, hrn⟩ | ⟨r, hr, hrn⟩
      · exact ⟨r, hr, Or.inl hrn.symm⟩
      · exact ⟨r, hr, Or.inr hrn.symm⟩
    · rintro ⟨he, r, hr, hrn | hrn⟩
      · exact ⟨he, Or.inl ⟨r, hr, hrn.symm⟩⟩
      · exact ⟨he, Or.inr ⟨r, hr, hrn.symm⟩⟩

/-- Witness for C4's amended theorem at the query "type Person": the type
regex captures "Person", so the query is answered relation-first. -/
theorem searchNodes_relation_token_first_witness :
    (∀ r, r ∈ (searchNodes (storedState ⟨[⟨"Alice", "Person", []⟩], []⟩ "t0")
        "type Person" "t1" true).1.relations ↔
        r ∈ (⟨[⟨"Alice", "Person", []⟩], []⟩ : KnowledgeGraph).relations ∧
        (∀ n, findCapture "relations".toList "type Person".toList = some n →
          (r.from_ = n ∨ r.to_ = n)) ∧
        (∀ n, findCapture "from".toList "type Person".toList = some n →
          r.from_ = n) ∧
        (∀ n, findCapture "to".toList "type Person".toList = some n →
          r.to_ = n) ∧
        (∀ n, findCapture "type".toList "type Person".toList = some n →
          includesCI r.relationType n = true)) ∧
    (∀ e, e ∈ (searchNodes (storedState ⟨[⟨"Alice", "Person", []⟩], []⟩ "t0")
        "type Person" "t1" true).1.entities ↔
        e ∈ (⟨[⟨"Alice", "Person", []⟩], []⟩ : KnowledgeGraph).entities ∧
        ∃ r ∈ (searchNodes (storedState ⟨[⟨"Alice", "Person", []⟩], []⟩ "t0")
          "type Person" "t1" true).1.relations,
          e.name = r.from_ ∨ e.name = r.to_) :=
  searchNodes_relation_token_first ⟨[⟨"Alice", "Person", []⟩], []⟩ "t0"
    "type Person" "t1" (by decide)

/-- Counterexample to C4 as stated: the graph holds entity "Alice" of
entityType exactly "Person" and no relations, yet `search_nodes` on
"type Person" returns no entities — the type-regex hit routes the query to
relation-first filtering (over an empty relation set) instead of the
claimed type-index lookup. -/
theorem searchNodes_type_query_claim_false :
    (⟨"Alice", "Person", []⟩ : Entity) ∈
      (⟨[⟨"Alice", "Person", []⟩], []⟩ : KnowledgeGraph).entities ∧
    Entity.entityType ⟨"Alice", "Person", []⟩ = "Person" ∧
    (searchNodes (storedState ⟨[⟨"Alice", "Person", []⟩], []⟩ "t0")
        "type Person" "t1" true).1.entities = [] ∧
    (searchNodes (storedState ⟨[⟨"Alice", "Person", []⟩], []⟩ "t0")
        "type Person" "t1" true).1.relations = [] := by
  refine ⟨by decide, rfl, by decide, by decide⟩

end MemoryServer
